import Mathlib

/-!
Storage adapters and benchmark driver of grogudb-benchmark.

A shallow embedding of `storage.go`, `leveldb.go`, `badger.go`, `bblot.go`
and `grogudb.go`.  Byte slices are lists of characters (every byte the
harness produces is ASCII), Go `error` values are strings, a nil slice or a
nil error is `none`.  The third-party engines are finite maps kept in key
order; their own validation of sizes and blank names, and I/O faults, are
outside the model.
-/

namespace GroguBench

/-- Go `[]byte`; also used for the `string` bucket names, which the harness
obtains as `string(bucketNum(n))`. -/
abbrev Bytes := List Char

/-- Go `error` value that is not nil. -/
abbrev GoError := String

/-- The `%d` verb of `fmt.Sprintf` on a non-negative `int`. -/
def fmtInt (n : Nat) : Bytes := Nat.toDigits 10 n

/-- `bucketNum` of `storage.go`: `fmt.Sprintf("bucket%d", i)`. -/
def bucketNum (i : Nat) : Bytes := "bucket".toList ++ fmtInt i

/-- `keyNum` of `storage.go`: `fmt.Sprintf("bucket%d:key%d", bucket, i)`. -/
def keyNum (bucket i : Nat) : Bytes :=
  "bucket".toList ++ fmtInt bucket ++ ":key".toList ++ fmtInt i

/-- `valNum` of `storage.go`: `fmt.Sprintf("bucket%d:val%d", bucket, i)`. -/
def valNum (bucket i : Nat) : Bytes :=
  "bucket".toList ++ fmtInt bucket ++ ":val".toList ++ fmtInt i

deriving instance DecidableEq for Except

/-- Reads a run of decimal digit characters back as a number. -/
def digitsVal (cs : List Char) : Nat := cs.foldl (fun a c => a * 10 + (c.toNat - 48)) 0

/-! ## Finite maps in key order -/

/-- Lexicographic order on byte strings (`bytes.Compare a b < 0`). -/
def bytesLt : Bytes → Bytes → Bool
  | [], [] => false
  | [], _ :: _ => true
  | _ :: _, [] => false
  | a :: as, b :: bs => if a = b then bytesLt as bs else decide (a.toNat < b.toNat)

/-- A finite map from byte strings, its entries in ascending key order. -/
abbrev KV (V : Type) := List (Bytes × V)

/-- Value bound to `k`, if any. -/
def kvGet {V : Type} : KV V → Bytes → Option V
  | [], _ => none
  | (k', v') :: rest, k => if k = k' then some v' else kvGet rest k

/-- Binds `k` to `v`, replacing an earlier binding. -/
def kvPut {V : Type} : KV V → Bytes → V → KV V
  | [], k, v => [(k, v)]
  | (k', v') :: rest, k, v =>
    if k = k' then (k, v) :: rest
    else if bytesLt k k' then (k, v) :: (k', v') :: rest
    else (k', v') :: kvPut rest k v

/-- Removes the binding of `k`, if any. -/
def kvDel {V : Type} : KV V → Bytes → KV V
  | [], _ => []
  | (k', v') :: rest, k => if k = k' then rest else (k', v') :: kvDel rest k

/-- What a function with result type `error` does: it returns (nil or an
error), or it panics. -/
inductive Outcome
  | ret (err : Option GoError)
  | panic (err : GoError)
  deriving DecidableEq, Repr

/-- A scan callback `func(k, v []byte) error`; `τ` is whatever the closure
captures and updates. -/
abbrev Callback (τ : Type) := τ → Bytes → Bytes → τ × Option GoError

/-- Calls `fn` on the entries in turn and stops at the first error. -/
def runCalls {τ : Type} (fn : Callback τ) : List (Bytes × Bytes) → τ → τ × Option GoError
  | [], t => (t, none)
  | (k, v) :: rest, t =>
    match fn t k v with
    | (t', some e) => (t', some e)
    | (t', none) => runCalls fn rest t'

/-- A callback that never fails and keeps the entries it was given. -/
def recorder : Callback (List (Bytes × Bytes)) := fun acc k v => (acc ++ [(k, v)], none)

/-- The `Storage` interface of `storage.go`, over a backend state `σ`. -/
structure Storage (σ : Type) where
  Put : Bytes → Bytes → Bytes → σ → σ × Option GoError
  PutIf : Bytes → Bytes → Bytes → σ → σ × Option GoError
  Get : Bytes → Bytes → σ → σ × Option Bytes × Option GoError
  Del : Bytes → Bytes → σ → σ × Option GoError
  Has : Bytes → Bytes → σ → σ × Bool × Option GoError
  Range : (τ : Type) → Bytes → Callback τ → τ → σ → σ × τ × Outcome
  Close : σ → Option GoError

/-! ## goleveldb -/

/-- Error `leveldb.ErrNotFound`. -/
def leveldbErrNotFound : GoError := "leveldb: not found"

/-- Method `DB.Put` of goleveldb. -/
def leveldbPut (db : KV Bytes) (k v : Bytes) : KV Bytes × Option GoError := (kvPut db k v, none)

/-- Method `DB.Has` of goleveldb. -/
def leveldbHas (db : KV Bytes) (k : Bytes) : Bool × Option GoError := ((kvGet db k).isSome, none)

/-- Method `DB.Get` of goleveldb. -/
def leveldbGet (db : KV Bytes) (k : Bytes) : Option Bytes × Option GoError :=
  match kvGet db k with
  | some v => (some v, none)
  | none => (none, some leveldbErrNotFound)

/-- Method `DB.Delete` of goleveldb. -/
def leveldbDelete (db : KV Bytes) (k : Bytes) : KV Bytes × Option GoError := (kvDel db k, none)

/-- Entries of `DB.NewIterator(util.BytesPrefix(p), nil)`: those whose key
starts with `p`, in key order. -/
def leveldbNewIterator (db : KV Bytes) (p : Bytes) : List (Bytes × Bytes) :=
  db.filter (fun e => p.isPrefixOf e.1)

namespace LevelDBStorage

/-- `LevelDBStorage.Put`. -/
def Put (_ : Bytes) (k v : Bytes) (db : KV Bytes) : KV Bytes × Option GoError :=
  leveldbPut db k v

/-- `LevelDBStorage.PutIf`. -/
def PutIf (_ : Bytes) (k v : Bytes) (db : KV Bytes) : KV Bytes × Option GoError :=
  match leveldbHas db k with
  | (_, some err) => (db, some err)
  | (ok, none) => if !ok then leveldbPut db k v else (db, none)

/-- `LevelDBStorage.Get`. -/
def Get (_ : Bytes) (k : Bytes) (db : KV Bytes) : KV Bytes × Option Bytes × Option GoError :=
  (db, leveldbGet db k)

/-- `LevelDBStorage.Has`. -/
def Has (_ : Bytes) (k : Bytes) (db : KV Bytes) : KV Bytes × Bool × Option GoError :=
  (db, leveldbHas db k)

/-- `LevelDBStorage.Del`. -/
def Del (_ : Bytes) (k : Bytes) (db : KV Bytes) : KV Bytes × Option GoError :=
  leveldbDelete db k

/-- The loop `for it.First(); it.Next(); { ... }` of `LevelDBStorage.Range`.
The iterator is the list of entries from the one under the cursor onward:
`it.First()` leaves it on the whole range, and each evaluation of the loop
condition `it.Next()` drops the entry under the cursor and reports whether
one is left. -/
def rangeLoop {τ : Type} (fn : Callback τ) : List (Bytes × Bytes) → τ → τ × Outcome
  | [], t => (t, .ret none)
  | [_], t => (t, .ret none)
  | _ :: (k, v) :: more, t =>
    match fn t k v with
    | (t', some err) => (t', .ret (some err))
    | (t', none) => rangeLoop fn ((k, v) :: more) t'

/-- `LevelDBStorage.Range`. -/
def Range (τ : Type) (bucket : Bytes) (fn : Callback τ) (t : τ) (db : KV Bytes) :
    KV Bytes × τ × Outcome :=
  (db, rangeLoop fn (leveldbNewIterator db bucket) t)

/-- `LevelDBStorage.Close`. -/
def Close (_ : KV Bytes) : Option GoError := none

/-- The adapter as a `Storage`. -/
def storage : Storage (KV Bytes) := ⟨Put, PutIf, Get, Del, Has, Range, Close⟩

end LevelDBStorage

/-! ## badger -/

/-- Error `badger.ErrKeyNotFound`. -/
def badgerErrKeyNotFound : GoError := "Key not found"

/-- Method `DB.Update` of badger: runs `f` in a read-write transaction and
commits its writes when `f` returns nil, drops them otherwise. -/
def badgerUpdate {α : Type} (f : KV Bytes → KV Bytes × α × Option GoError) (db : KV Bytes) :
    KV Bytes × α × Option GoError :=
  match f db with
  | (txn, a, none) => (txn, a, none)
  | (_, a, some err) => (db, a, some err)

/-- Method `Txn.Get` of badger, giving the item's value. -/
def badgerTxnGet (txn : KV Bytes) (k : Bytes) : Option Bytes × Option GoError :=
  match kvGet txn k with
  | some v => (some v, none)
  | none => (none, some badgerErrKeyNotFound)

/-- Method `Txn.Set` of badger. -/
def badgerTxnSet (txn : KV Bytes) (k v : Bytes) : KV Bytes × Option GoError := (kvPut txn k v, none)

/-- Method `Txn.Delete` of badger. -/
def badgerTxnDelete (txn : KV Bytes) (k : Bytes) : KV Bytes × Option GoError := (kvDel txn k, none)

/-- Method `Iterator.Seek` of badger: the entries from the first key that is
not below `p` onward. -/
def badgerSeek (txn : KV Bytes) (p : Bytes) : List (Bytes × Bytes) :=
  txn.dropWhile (fun e => bytesLt e.1 p)

namespace BadgerStorage

/-- `BadgerStorage.Put`. -/
def Put (_ : Bytes) (k v : Bytes) (db : KV Bytes) : KV Bytes × Option GoError :=
  match badgerUpdate (fun txn => match badgerTxnSet txn k v with
      | (txn', err) => (txn', (), err)) db with
  | (db', _, err) => (db', err)

/-- `BadgerStorage.PutIf`. -/
def PutIf (_ : Bytes) (k v : Bytes) (db : KV Bytes) : KV Bytes × Option GoError :=
  match badgerUpdate (fun txn =>
      match badgerTxnGet txn k with
      | (_, err) =>
        if err = some badgerErrKeyNotFound then
          match badgerTxnSet txn k v with
          | (txn', err') => (txn', (), err')
        else (txn, (), none)) db with
  | (db', _, err) => (db', err)

/-- `BadgerStorage.Get`. -/
def Get (_ : Bytes) (k : Bytes) (db : KV Bytes) : KV Bytes × Option Bytes × Option GoError :=
  badgerUpdate (fun txn =>
    match badgerTxnGet txn k with
    | (_, some err) => (txn, none, some err)
    | (item, none) => (txn, item, none)) db

/-- `BadgerStorage.Has`. -/
def Has (_ : Bytes) (k : Bytes) (db : KV Bytes) : KV Bytes × Bool × Option GoError :=
  badgerUpdate (fun txn =>
    match badgerTxnGet txn k with
    | (_, err) => (txn, decide (err = none), none)) db

/-- `BadgerStorage.Del`. -/
def Del (_ : Bytes) (k : Bytes) (db : KV Bytes) : KV Bytes × Option GoError :=
  match badgerUpdate (fun txn => match badgerTxnDelete txn k with
      | (txn', err) => (txn', (), err)) db with
  | (db', _, err) => (db', err)

/-- The loop `for it.Seek(p); it.ValidForPrefix(p); it.Next() { ... }` of
`BadgerStorage.Range`, on the entries from the one under the cursor onward. -/
def rangeLoop {τ : Type} (p : Bytes) (fn : Callback τ) : List (Bytes × Bytes) → τ → τ × Option GoError
  | [], t => (t, none)
  | (k, v) :: more, t =>
    if p.isPrefixOf k then
      match fn t k v with
      | (t', some err) => (t', some err)
      | (t', none) => rangeLoop p fn more t'
    else (t, none)

/-- `BadgerStorage.Range`. -/
def Range (τ : Type) (bucket : Bytes) (fn : Callback τ) (t : τ) (db : KV Bytes) :
    KV Bytes × τ × Outcome :=
  match badgerUpdate (fun txn =>
      match rangeLoop bucket fn (badgerSeek txn bucket) t with
      | (t', err) => (txn, t', err)) db with
  | (db', t', err) => (db', t', .ret err)

/-- `BadgerStorage.Close`. -/
def Close (_ : KV Bytes) : Option GoError := none

/-- The adapter as a `Storage`. -/
def storage : Storage (KV Bytes) := ⟨Put, PutIf, Get, Del, Has, Range, Close⟩

end BadgerStorage

/-! ## bbolt -/

/-- A database of named buckets, each a finite map of its own. -/
abbrev Buckets := KV (KV Bytes)

/-- Entries of the bucket `name`; none when there is no such bucket. -/
def bucketEntries (db : Buckets) (name : Bytes) : KV Bytes := (kvGet db name).getD []

/-- Method `DB.Update` of bbolt: runs `f` in a read-write transaction, commits
when `f` returns nil and rolls back otherwise. -/
def boltUpdate {α : Type} (f : Buckets → Buckets × α × Option GoError) (db : Buckets) :
    Buckets × α × Option GoError :=
  match f db with
  | (tx, a, none) => (tx, a, none)
  | (_, a, some err) => (db, a, some err)

/-- Method `Tx.CreateBucketIfNotExists` of bbolt; the bucket handle is its name. -/
def boltCreateBucketIfNotExists (tx : Buckets) (name : Bytes) : Buckets × Option GoError :=
  match kvGet tx name with
  | some _ => (tx, none)
  | none => (kvPut tx name [], none)

/-- Method `Bucket.Get` of bbolt: nil when the key does not exist. -/
def boltBucketGet (tx : Buckets) (name k : Bytes) : Option Bytes :=
  kvGet (bucketEntries tx name) k

/-- Method `Bucket.Put` of bbolt. -/
def boltBucketPut (tx : Buckets) (name k v : Bytes) : Buckets × Option GoError :=
  (kvPut tx name (kvPut (bucketEntries tx name) k v), none)

/-- Method `Bucket.Delete` of bbolt. -/
def boltBucketDelete (tx : Buckets) (name k : Bytes) : Buckets × Option GoError :=
  (kvPut tx name (kvDel (bucketEntries tx name) k), none)

/-- Method `Bucket.ForEach` of bbolt: calls `fn` on every entry of the bucket
and returns the first error. -/
def boltBucketForEach {τ : Type} (tx : Buckets) (name : Bytes) (fn : Callback τ) (t : τ) :
    τ × Option GoError :=
  runCalls fn (bucketEntries tx name) t

namespace BboltStorage

/-- `BboltStorage.Put`. -/
def Put (bucket k v : Bytes) (db : Buckets) : Buckets × Option GoError :=
  match boltUpdate (fun tx =>
      match boltCreateBucketIfNotExists tx bucket with
      | (tx1, some err) => (tx1, (), some err)
      | (tx1, none) =>
        match boltBucketPut tx1 bucket k v with
        | (tx2, err) => (tx2, (), err)) db with
  | (db', _, err) => (db', err)

/-- `BboltStorage.PutIf`. -/
def PutIf (bucket k v : Bytes) (db : Buckets) : Buckets × Option GoError :=
  match boltUpdate (fun tx =>
      match boltCreateBucketIfNotExists tx bucket with
      | (tx1, some err) => (tx1, (), some err)
      | (tx1, none) =>
        match boltBucketGet tx1 bucket k with
        | none =>
          match boltBucketPut tx1 bucket k v with
          | (tx2, err) => (tx2, (), err)
        | some _ => (tx1, (), none)) db with
  | (db', _, err) => (db', err)

/-- `BboltStorage.Get`. -/
def Get (bucket k : Bytes) (db : Buckets) : Buckets × Option Bytes × Option GoError :=
  boltUpdate (fun tx =>
    match boltCreateBucketIfNotExists tx bucket with
    | (tx1, some err) => (tx1, none, some err)
    | (tx1, none) => (tx1, boltBucketGet tx1 bucket k, none)) db

/-- `BboltStorage.Has`. -/
def Has (bucket k : Bytes) (db : Buckets) : Buckets × Bool × Option GoError :=
  match boltUpdate (fun tx =>
      match boltCreateBucketIfNotExists tx bucket with
      | (tx1, some err) => (tx1, none, some err)
      | (tx1, none) => (tx1, boltBucketGet tx1 bucket k, none)) db with
  | (db', val, err) => (db', val.isSome, err)

/-- `BboltStorage.Del`. -/
def Del (bucket k : Bytes) (db : Buckets) : Buckets × Option GoError :=
  match boltUpdate (fun tx =>
      match boltCreateBucketIfNotExists tx bucket with
      | (tx1, some err) => (tx1, (), some err)
      | (tx1, none) =>
        match boltBucketDelete tx1 bucket k with
        | (tx2, err) => (tx2, (), err)) db with
  | (db', _, err) => (db', err)

/-- `BboltStorage.Range`. -/
def Range (τ : Type) (bucket : Bytes) (fn : Callback τ) (t : τ) (db : Buckets) :
    Buckets × τ × Outcome :=
  match boltUpdate (fun tx =>
      match boltCreateBucketIfNotExists tx bucket with
      | (tx1, some err) => (tx1, t, some err)
      | (tx1, none) =>
        match boltBucketForEach tx1 bucket fn t with
        | (t', err) => (tx1, t', err)) db with
  | (db', t', err) => (db', t', .ret err)

/-- `BboltStorage.Close`. -/
def Close (_ : Buckets) : Option GoError := none

/-- The adapter as a `Storage`. -/
def storage : Storage Buckets := ⟨Put, PutIf, Get, Del, Has, Range, Close⟩

end BboltStorage

/-! ## grogudb -/

/-- Method `DB.GetOrCreateBucket` of grogudb; the bucket handle is its name. -/
def grogudbGetOrCreateBucket (db : Buckets) (name : Bytes) : Buckets :=
  match kvGet db name with
  | some _ => db
  | none => kvPut db name []

/-- Method `Bucket.Put` of grogudb. -/
def grogudbBucketPut (db : Buckets) (name k v : Bytes) : Buckets × Option GoError :=
  (kvPut db name (kvPut (bucketEntries db name) k v), none)

/-- Method `Bucket.PutIf` of grogudb: writes only when the key is absent. -/
def grogudbBucketPutIf (db : Buckets) (name k v : Bytes) : Buckets × Option GoError :=
  match kvGet (bucketEntries db name) k with
  | some _ => (db, none)
  | none => (kvPut db name (kvPut (bucketEntries db name) k v), none)

/-- Method `Bucket.Get` of grogudb: nil, without an error, when the key is absent. -/
def grogudbBucketGet (db : Buckets) (name k : Bytes) : Option Bytes × Option GoError :=
  (kvGet (bucketEntries db name) k, none)

/-- Method `Bucket.Has` of grogudb. -/
def grogudbBucketHas (db : Buckets) (name k : Bytes) : Bool :=
  (kvGet (bucketEntries db name) k).isSome

/-- Method `Bucket.Del` of grogudb. -/
def grogudbBucketDel (db : Buckets) (name k : Bytes) : Buckets × Option GoError :=
  (kvPut db name (kvDel (bucketEntries db name) k), none)

/-- Method `Bucket.Range` of grogudb.  Its visitor `func(key, val Bytes)` has
no result; `visit` gives `some e` when the visitor panics with `e`, and the
panic leaves `Range` without a return. -/
def grogudbBucketRange {τ : Type} (visit : Callback τ) : List (Bytes × Bytes) → τ → τ × Outcome
  | [], t => (t, .ret none)
  | (k, v) :: more, t =>
    match visit t k v with
    | (t', some e) => (t', .panic e)
    | (t', none) => grogudbBucketRange visit more t'

namespace GrogudbStorage

/-- `GrogudbStorage.Put`. -/
def Put (bucket k v : Bytes) (db : Buckets) : Buckets × Option GoError :=
  grogudbBucketPut (grogudbGetOrCreateBucket db bucket) bucket k v

/-- `GrogudbStorage.PutIf`. -/
def PutIf (bucket k v : Bytes) (db : Buckets) : Buckets × Option GoError :=
  grogudbBucketPutIf (grogudbGetOrCreateBucket db bucket) bucket k v

/-- `GrogudbStorage.Get`. -/
def Get (bucket k : Bytes) (db : Buckets) : Buckets × Option Bytes × Option GoError :=
  (grogudbGetOrCreateBucket db bucket,
    grogudbBucketGet (grogudbGetOrCreateBucket db bucket) bucket k)

/-- `GrogudbStorage.Has`. -/
def Has (bucket k : Bytes) (db : Buckets) : Buckets × Bool × Option GoError :=
  (grogudbGetOrCreateBucket db bucket,
    grogudbBucketHas (grogudbGetOrCreateBucket db bucket) bucket k, none)

/-- `GrogudbStorage.Del`. -/
def Del (bucket k : Bytes) (db : Buckets) : Buckets × Option GoError :=
  grogudbBucketDel (grogudbGetOrCreateBucket db bucket) bucket k

/-- `GrogudbStorage.Range`: the visitor handed to grogudb calls `fn` and
panics with the error `fn` returns. -/
def Range (τ : Type) (bucket : Bytes) (fn : Callback τ) (t : τ) (db : Buckets) :
    Buckets × τ × Outcome :=
  (grogudbGetOrCreateBucket db bucket,
    grogudbBucketRange (fun t k v =>
        match fn t k v with
        | (t', some err) => (t', some err)
        | (t', none) => (t', none))
      (bucketEntries (grogudbGetOrCreateBucket db bucket) bucket) t)

/-- `GrogudbStorage.Close`. -/
def Close (_ : Buckets) : Option GoError := none

/-- The adapter as a `Storage`. -/
def storage : Storage Buckets := ⟨Put, PutIf, Get, Del, Has, Range, Close⟩

end GrogudbStorage

/-! ## Registry -/

/-- A Go `map[string]V`: at most one binding for a name. -/
abbrev GoMap (V : Type u) := List (String × V)

/-- The lookup `m[name]`, with its `ok` flag as the option. -/
def mapGet {V : Type u} : GoMap V → String → Option V
  | [], _ => none
  | (n, v) :: rest, name => if name = n then some v else mapGet rest name

/-- The assignment `m[name] = v`. -/
def mapSet {V : Type u} : GoMap V → String → V → GoMap V
  | [], name, v => [(name, v)]
  | (n, v') :: rest, name, v =>
    if name = n then (n, v) :: rest else (n, v') :: mapSet rest name v

/-- `Register` of `storage.go`, on the map `registerStorage`. -/
def Register {F : Type u} (registerStorage : GoMap F) (name : String) (fn : F) : GoMap F :=
  mapSet registerStorage name fn

/-- An opened backend: the adapter and the state of its engine. -/
structure Backend where
  σ : Type
  stor : Storage σ
  db : σ

/-- What a factory `func(path string) Storage` does when called: it panics
with the error of the engine's open call, or returns the adapter. -/
abbrev Factory := Except GoError Backend

/-- The LevelDB adapter on an empty database. -/
def leveldbBackend : Backend := ⟨KV Bytes, LevelDBStorage.storage, []⟩

/-- The Badger adapter on an empty database. -/
def badgerBackend : Backend := ⟨KV Bytes, BadgerStorage.storage, []⟩

/-- The bbolt adapter on an empty database. -/
def bboltBackend : Backend := ⟨Buckets, BboltStorage.storage, []⟩

/-- The grogudb adapter on an empty database. -/
def grogudbBackend : Backend := ⟨Buckets, GrogudbStorage.storage, []⟩

/-- `NewLevelDBStorage`; `openErr` is the result of `leveldb.OpenFile`. -/
def NewLevelDBStorage (openErr : Option GoError) : Factory :=
  match openErr with
  | some err => .error err
  | none => .ok leveldbBackend

/-- `NewBadgerStorage`; `openErr` is the result of `badger.Open`. -/
def NewBadgerStorage (openErr : Option GoError) : Factory :=
  match openErr with
  | some err => .error err
  | none => .ok badgerBackend

/-- `NewBblotStorage`; `openErr` is the result of `bbolt.Open`. -/
def NewBblotStorage (openErr : Option GoError) : Factory :=
  match openErr with
  | some err => .error err
  | none => .ok bboltBackend

/-- `NewGroguDBStorage`; `openErr` is the result of `grogudb.Open`. -/
def NewGroguDBStorage (openErr : Option GoError) : Factory :=
  match openErr with
  | some err => .error err
  | none => .ok grogudbBackend

def StorageLevelDB : String := "leveldb"
def StorageBadger : String := "badger"
def StorageBblot : String := "bblot"
def StorageGroguDB : String := "grogudb"

/-- The map `registerStorage` once the `init` functions of the four adapter
files have run; `openErr` tells which engines fail to open. -/
def registerStorage (openErr : String → Option GoError) : GoMap Factory :=
  Register (Register (Register (Register []
    StorageBadger (NewBadgerStorage (openErr StorageBadger)))
    StorageBblot (NewBblotStorage (openErr StorageBblot)))
    StorageGroguDB (NewGroguDBStorage (openErr StorageGroguDB)))
    StorageLevelDB (NewLevelDBStorage (openErr StorageLevelDB))

/-! ## Workers -/

/-- The goroutines of one benchmark phase: `js[n]` is the loop counter `j` of
worker `n`, `stor` the state of the shared backend. -/
structure Workers (σ : Type) where
  js : List Nat
  stor : σ

/-- One turn of worker `n`: the next iteration of its loop
`for j := 0; j < iter; j++`, whose body `call n j` either leaves a new backend
state or panics.  A finished worker, or an `n` that names none, does nothing. -/
def workerStep {σ : Type} (call : Nat → Nat → σ → Except GoError σ) (iter : Nat)
    (w : Workers σ) (n : Nat) : Except GoError (Workers σ) :=
  match w.js[n]? with
  | none => .ok w
  | some j =>
    if j < iter then
      match call n j w.stor with
      | .ok s => .ok ⟨w.js.set n (j + 1), s⟩
      | .error err => .error err
    else .ok w

/-- Runs the workers in the order the scheduler picks them. -/
def runPicks {σ : Type} (call : Nat → Nat → σ → Except GoError σ) (iter : Nat) :
    List Nat → Workers σ → Except GoError (Workers σ)
  | [], w => .ok w
  | n :: rest, w =>
    match workerStep call iter w n with
    | .ok w' => runPicks call iter rest w'
    | .error err => .error err

/-- Picks that let every worker below `buckets` finish, whatever was run before. -/
def drainPicks (iter : Nat) : Nat → List Nat
  | 0 => []
  | b + 1 => drainPicks iter b ++ List.replicate iter b

/-- The block `for i := 0; i < buckets; i++ { go func() { ... }() }; wg.Wait()`:
one worker per bucket index, interleaved as `sched` says, each contract call
taken as one step; `wg.Wait` returns once every worker has finished.  The
result is the backend state then, or the value of the first panic. -/
def runWorkers {σ : Type} (call : Nat → Nat → σ → Except GoError σ) (buckets iter : Nat)
    (sched : List Nat) (s : σ) : Except GoError σ :=
  match runPicks call iter (sched ++ drainPicks iter buckets) ⟨List.replicate buckets 0, s⟩ with
  | .ok w => .ok w.stor
  | .error err => .error err

/-- The statement `if err != nil { panic(err) }` after a contract call. -/
def orPanic {σ : Type} (r : σ × Option GoError) : Except GoError σ :=
  match r with
  | (s, none) => .ok s
  | (_, some err) => .error err

/-- `benchmarkPut` of `storage.go`. -/
def benchmarkPut {σ : Type} (stor : Storage σ) (unique : Bool) (buckets iter : Nat)
    (sched : List Nat) (s : σ) : Except GoError σ :=
  runWorkers (fun n j s =>
    orPanic (stor.Put (bucketNum n) (if unique then keyNum n j else keyNum n 0) (valNum n j) s))
    buckets iter sched s

/-- The worker block of `BenchmarkPutIf`. -/
def benchmarkPutIf {σ : Type} (stor : Storage σ) (buckets iter : Nat)
    (sched : List Nat) (s : σ) : Except GoError σ :=
  runWorkers (fun n j s => orPanic (stor.PutIf (bucketNum n) (keyNum n 0) (valNum n j) s))
    buckets iter sched s

/-- The worker block of `BenchmarkRange`: one scan per worker, with a callback
that returns nil. -/
def benchmarkRange {σ : Type} (stor : Storage σ) (buckets : Nat)
    (sched : List Nat) (s : σ) : Except GoError σ :=
  runWorkers (fun n _ s =>
    match stor.Range Unit (bucketNum n) (fun _ _ _ => ((), none)) () s with
    | (s', _, .ret none) => .ok s'
    | (_, _, .ret (some err)) => .error err
    | (_, _, .panic err) => .error err)
    buckets 1 sched s

/-- The worker block of `BenchmarkHas`. -/
def benchmarkHas {σ : Type} (stor : Storage σ) (storageType : String) (buckets iter : Nat)
    (sched : List Nat) (s : σ) : Except GoError σ :=
  runWorkers (fun n j s =>
    match stor.Has (bucketNum n) (keyNum n j) s with
    | (s', true, none) => .ok s'
    | _ => .error (storageType ++ ":Has"))
    buckets iter sched s

/-- The worker block of `BenchmarkDel`. -/
def benchmarkDel {σ : Type} (stor : Storage σ) (storageType : String) (buckets iter : Nat)
    (sched : List Nat) (s : σ) : Except GoError σ :=
  runWorkers (fun n j s =>
    match stor.Del (bucketNum n) (keyNum n j) s with
    | (s', none) => .ok s'
    | _ => .error (storageType ++ ":Del"))
    buckets iter sched s

/-- The worker block of `BenchmarkGet`. -/
def benchmarkGet {σ : Type} (stor : Storage σ) (storageType : String) (buckets iter : Nat)
    (sched : List Nat) (s : σ) : Except GoError σ :=
  runWorkers (fun n j s =>
    match stor.Get (bucketNum n) (keyNum n j) s with
    | (s', _, none) => .ok s'
    | _ => .error (storageType ++ ":Get"))
    buckets iter sched s

/-! ## Benchmark routines and `main` -/

def OpPutUnique : String := "PutUnique"
def OpPutDuplicate : String := "PutDuplicate"
def OpPutIf : String := "PutIf"
def OpRange : String := "Range"
def OpHas : String := "Has"
def OpDel : String := "Del"
def OpGet : String := "Get"

/-- What a run does that can be seen from outside the process. -/
inductive Event
  /-- Output of `fmt.Printf` for an unknown name. -/
  | print (line : String)
  /-- Entry into the benchmark routine of an operation. -/
  | routine (op : String)
  /-- Directory created by `makeTmpDir`. -/
  | mkdirTemp
  /-- Directory removed by `removeDir`. -/
  | removeAll
  /-- Call of the factory registered under a name. -/
  | factory (name : String)
  /-- Call of `stor.Close`. -/
  | close
  /-- The throughput line printed when a routine completes. -/
  | report (op : String)
  /-- End of the process by a panic nobody recovers. -/
  | fatal
  deriving DecidableEq, Repr

/-- How a call ends: it returns, it panics in the calling goroutine, or a
goroutine it started panics while the caller waits. -/
inductive Ending
  | returns
  | panics
  | workerPanics
  deriving DecidableEq, Repr

/-- A statement of a routine body: `defer f()`, or a call with what it does
and how it ends. -/
inductive Stmt
  | defer (ev : Event)
  | call (evs : List Event) (ending : Ending)

/-- Runs a routine body in the main goroutine; `ds` holds the deferred calls,
last one first.  On return the deferred calls run.  A panic in the main
goroutine runs them too, then ends the process.  A panic in a worker
goroutine ends the process while the main goroutine is blocked in `wg.Wait`,
so its deferred calls do not run. -/
def exec : List Stmt → List Event → List Event
  | [], ds => ds
  | .defer ev :: rest, ds => exec rest (ev :: ds)
  | .call evs .returns :: rest, ds => evs ++ exec rest ds
  | .call evs .panics :: _, ds => evs ++ ds ++ [.fatal]
  | .call evs .workerPanics :: _, _ => evs ++ [.fatal]

/-- The ending of a worker block. -/
def workersEnding {σ : Type} (r : Except GoError σ) : Ending :=
  match r with
  | .ok _ => .returns
  | .error _ => .workerPanics

/-- The frame shared by the seven benchmark routines: `makeTmpDir`,
`defer removeDir(dir)`, the call `registerStorage[storageType](dir)` (a
missing name gives a nil function, and calling it panics),
`defer stor.Close()`, the worker blocks `work`, and the report. -/
def routineBody (op : String) (registerStorage : GoMap Factory) (storageType : String)
    (work : Backend → Ending) : List Stmt :=
  [.call [.routine op, .mkdirTemp] .returns, .defer .removeAll] ++
  match mapGet registerStorage storageType with
  | none => [.call [] .panics]
  | some (.error _) => [.call [.factory storageType] .panics]
  | some (.ok be) =>
    [.call [.factory storageType] .returns, .defer .close,
     .call [] (work be), .call [.report op] .returns]

/-- The run configuration `defOptions`, with the interleavings the scheduler
takes in the first and the second worker block of a routine. -/
structure Option_ where
  Iter : Nat
  Buckets : Nat
  StorageType : String
  Operation : String
  sched1 : List Nat
  sched2 : List Nat

/-- `BenchmarkPutUniqueKey`. -/
def BenchmarkPutUniqueKey (reg : GoMap Factory) (o : Option_) (storageType : String) :
    List Event :=
  exec (routineBody OpPutUnique reg storageType fun be =>
    workersEnding (benchmarkPut be.stor true o.Buckets o.Iter o.sched1 be.db)) []

/-- `BenchmarkPutDuplicateKey`. -/
def BenchmarkPutDuplicateKey (reg : GoMap Factory) (o : Option_) (storageType : String) :
    List Event :=
  exec (routineBody OpPutDuplicate reg storageType fun be =>
    workersEnding (benchmarkPut be.stor false o.Buckets o.Iter o.sched1 be.db)) []

/-- `BenchmarkPutIf`. -/
def BenchmarkPutIf (reg : GoMap Factory) (o : Option_) (storageType : String) : List Event :=
  exec (routineBody OpPutIf reg storageType fun be =>
    workersEnding (benchmarkPutIf be.stor o.Buckets o.Iter o.sched1 be.db)) []

/-- A routine that fills the store with `benchmarkPut(stor, true)` and then
runs a second worker block. -/
def afterPut (be : Backend) (o : Option_) (second : be.σ → Except GoError be.σ) : Ending :=
  match benchmarkPut be.stor true o.Buckets o.Iter o.sched1 be.db with
  | .error _ => .workerPanics
  | .ok s => workersEnding (second s)

/-- `BenchmarkRange`. -/
def BenchmarkRange (reg : GoMap Factory) (o : Option_) (storageType : String) : List Event :=
  exec (routineBody OpRange reg storageType fun be =>
    afterPut be o (benchmarkRange be.stor o.Buckets o.sched2)) []

/-- `BenchmarkHas`. -/
def BenchmarkHas (reg : GoMap Factory) (o : Option_) (storageType : String) : List Event :=
  exec (routineBody OpHas reg storageType fun be =>
    afterPut be o (benchmarkHas be.stor storageType o.Buckets o.Iter o.sched2)) []

/-- `BenchmarkDel`. -/
def BenchmarkDel (reg : GoMap Factory) (o : Option_) (storageType : String) : List Event :=
  exec (routineBody OpDel reg storageType fun be =>
    afterPut be o (benchmarkDel be.stor storageType o.Buckets o.Iter o.sched2)) []

/-- `BenchmarkGet`. -/
def BenchmarkGet (reg : GoMap Factory) (o : Option_) (storageType : String) : List Event :=
  exec (routineBody OpGet reg storageType fun be =>
    afterPut be o (benchmarkGet be.stor storageType o.Buckets o.Iter o.sched2)) []

/-- The map `registerOperation`. -/
def registerOperation (reg : GoMap Factory) (o : Option_) : GoMap (String → List Event) :=
  [(OpPutUnique, BenchmarkPutUniqueKey reg o),
   (OpPutDuplicate, BenchmarkPutDuplicateKey reg o),
   (OpRange, BenchmarkRange reg o),
   (OpPutIf, BenchmarkPutIf reg o),
   (OpHas, BenchmarkHas reg o),
   (OpDel, BenchmarkDel reg o),
   (OpGet, BenchmarkGet reg o)]

/-- The names a Go `range` over the map yields (in an order Go leaves open). -/
def mapKeys {V : Type u} (m : GoMap V) : List String := m.map Prod.fst

/-- `main` of `storage.go`, after `flag.Parse` has filled `defOptions`. -/
def main (reg : GoMap Factory) (o : Option_) : List Event :=
  (match mapGet reg o.StorageType with
   | some _ => []
   | none =>
     [.print ("no storage found, only [" ++ ",".intercalate (mapKeys reg) ++ "] supported\n")]) ++
  (match mapGet (registerOperation reg o) o.Operation with
   | none =>
     [.print ("no operation found, only [" ++
        ",".intercalate (mapKeys (registerOperation reg o)) ++ "] supported\n"),
      .fatal]
   | some fn => fn o.StorageType)

/-- A `Storage` whose engine rejects every write (a full disk, say); reads
find nothing. -/
def failingStorage : Storage Unit where
  Put := fun _ _ _ s => (s, some "no space left on device")
  PutIf := fun _ _ _ s => (s, some "no space left on device")
  Get := fun _ _ s => (s, none, none)
  Del := fun _ _ s => (s, some "no space left on device")
  Has := fun _ _ s => (s, false, none)
  Range := fun _ _ _ t s => (s, t, .ret none)
  Close := fun _ => none

/-- A factory that opens `failingStorage`. -/
def failingFactory : Factory := .ok ⟨Unit, failingStorage, ()⟩

/-! ## Scheduling lemmas -/

/-- The loop counters after one turn of worker `n`. -/
def stepJs (iter : Nat) (js : List Nat) (n : Nat) : List Nat :=
  match js[n]? with
  | none => js
  | some j => if j < iter then js.set n (j + 1) else js

/-- The part of the storage contract the put workloads rely on, for an
adapter `stor` whose bindings are read off a state by `look`. -/
structure PutLaws {σ : Type} (stor : Storage σ) (look : σ → Bytes → Bytes → Option Bytes) :
    Prop where
  put_ok : ∀ b k v s, (stor.Put b k v s).2 = none
  look_put_self : ∀ b k v s, look (stor.Put b k v s).1 b k = some v
  look_put_other : ∀ b k v s b' k', k' ≠ k → look (stor.Put b k v s).1 b' k' = look s b' k'
  get_look : ∀ b k s, (stor.Get b k s).2.1 = look s b k
  get_found : ∀ b k v s, look s b k = some v → (stor.Get b k s).2 = (some v, none)
  has_look : ∀ b k s, (stor.Has b k s).2 = ((look s b k).isSome, none)
  look_has : ∀ b k s b' k', look (stor.Has b k s).1 b' k' = look s b' k'

/-- The part of the storage contract the conditional-put workload relies on. -/
structure PutIfLaws {σ : Type} (stor : Storage σ) (look : σ → Bytes → Bytes → Option Bytes) :
    Prop where
  putIf_ok : ∀ b k v s, (stor.PutIf b k v s).2 = none
  look_putIf_self : ∀ b k v s, look (stor.PutIf b k v s).1 b k = some ((look s b k).getD v)
  look_putIf_other : ∀ b k v s b' k', k' ≠ k →
    look (stor.PutIf b k v s).1 b' k' = look s b' k'

/-- Bindings of a single map keyed by the key bytes alone. -/
def flatLook (db : KV Bytes) (_ : Bytes) (k : Bytes) : Option Bytes := kvGet db k

/-- Bindings of a database with one map per bucket. -/
def bucketLook (db : Buckets) (bucket k : Bytes) : Option Bytes := kvGet (bucketEntries db bucket) k

/-! ## Naming -/

theorem digitChar_val : ∀ m, m < 10 → (Nat.digitChar m).toNat - 48 = m := by decide

theorem digitChar_ne_colon : ∀ m, m < 10 → Nat.digitChar m ≠ ':' := by decide

theorem toDigitsCore_acc (fuel : Nat) : ∀ (n : Nat) (ds : List Char),
    Nat.toDigitsCore 10 fuel n ds = Nat.toDigitsCore 10 fuel n [] ++ ds := by
  induction fuel with
  | zero => intro n ds; simp [Nat.toDigitsCore]
  | succ f ih =>
    intro n ds
    simp only [Nat.toDigitsCore]
    by_cases h : n / 10 = 0
    · simp [h]
    · simp only [h, if_false]
      rw [ih (n / 10) (Nat.digitChar (n % 10) :: ds), ih (n / 10) [Nat.digitChar (n % 10)]]
      simp

theorem digitsVal_toDigitsCore (fuel : Nat) : ∀ n, n < fuel →
    digitsVal (Nat.toDigitsCore 10 fuel n []) = n := by
  induction fuel with
  | zero => intro n h; omega
  | succ f ih =>
    intro n hn
    simp only [Nat.toDigitsCore]
    have hd := digitChar_val (n % 10) (Nat.mod_lt _ (by decide))
    by_cases h : n / 10 = 0
    · simp only [h, if_true]
      simp only [digitsVal, List.foldl, hd]
      omega
    · simp only [h, if_false]
      rw [toDigitsCore_acc]
      have := ih (n / 10) (by omega)
      simp only [digitsVal] at this
      simp only [digitsVal, List.foldl_append, List.foldl, this, hd]
      omega

theorem colon_not_mem_toDigitsCore (fuel : Nat) : ∀ (n : Nat) (ds : List Char),
    ':' ∉ ds → ':' ∉ Nat.toDigitsCore 10 fuel n ds := by
  induction fuel with
  | zero => intro n ds h; simpa [Nat.toDigitsCore] using h
  | succ f ih =>
    intro n ds h
    simp only [Nat.toDigitsCore]
    have hc : ':' ∉ Nat.digitChar (n % 10) :: ds := by
      intro hm
      rcases List.mem_cons.1 hm with h1 | h1
      · exact digitChar_ne_colon (n % 10) (Nat.mod_lt _ (by decide)) h1.symm
      · exact h h1
    by_cases h0 : n / 10 = 0
    · simpa [h0] using hc
    · simp only [h0, if_false]
      exact ih _ _ hc

theorem fmtInt_injective {a b : Nat} (h : fmtInt a = fmtInt b) : a = b := by
  have ha := digitsVal_toDigitsCore (a + 1) a (Nat.lt_succ_self a)
  have hb := digitsVal_toDigitsCore (b + 1) b (Nat.lt_succ_self b)
  simp only [fmtInt, Nat.toDigits] at h
  rw [h] at ha
  omega

theorem colon_not_mem_fmtInt (n : Nat) : ':' ∉ fmtInt n :=
  colon_not_mem_toDigitsCore _ _ _ (by simp)

theorem split_at_colon : ∀ (l1 l2 r1 r2 : List Char), ':' ∉ l1 → ':' ∉ l2 →
    l1 ++ ':' :: r1 = l2 ++ ':' :: r2 → l1 = l2 ∧ r1 = r2 := by
  intro l1
  induction l1 with
  | nil =>
    intro l2 r1 r2 _ h2 h
    cases l2 with
    | nil => simpa using h
    | cons c l2 =>
      simp only [List.nil_append, List.cons_append, List.cons.injEq] at h
      exact absurd (by rw [← h.1]; simp) h2
  | cons c l1 ih =>
    intro l2 r1 r2 h1 h2 h
    cases l2 with
    | nil =>
      simp only [List.nil_append, List.cons_append, List.cons.injEq] at h
      exact absurd (by rw [h.1]; simp) h1
    | cons d l2 =>
      simp only [List.cons_append, List.cons.injEq] at h
      have := ih l2 r1 r2 (fun hm => h1 (List.mem_cons_of_mem _ hm))
        (fun hm => h2 (List.mem_cons_of_mem _ hm)) h.2
      exact ⟨by rw [h.1, this.1], this.2⟩

theorem bucketNum_injective {a b : Nat} (h : bucketNum a = bucketNum b) : a = b := by
  simp only [bucketNum] at h
  exact fmtInt_injective (List.append_cancel_left h)

theorem keyNum_injective {b i b' i' : Nat} (h : keyNum b i = keyNum b' i') : b = b' ∧ i = i' := by
  simp only [keyNum, List.append_assoc] at h
  have h1 := List.append_cancel_left h
  have h2 := split_at_colon (fmtInt b) (fmtInt b') ("key".toList ++ fmtInt i)
    ("key".toList ++ fmtInt i') (colon_not_mem_fmtInt b) (colon_not_mem_fmtInt b') h1
  exact ⟨fmtInt_injective h2.1, fmtInt_injective (List.append_cancel_left h2.2)⟩

theorem valNum_injective {b i b' i' : Nat} (h : valNum b i = valNum b' i') : b = b' ∧ i = i' := by
  simp only [valNum, List.append_assoc] at h
  have h1 := List.append_cancel_left h
  have h2 := split_at_colon (fmtInt b) (fmtInt b') ("val".toList ++ fmtInt i)
    ("val".toList ++ fmtInt i') (colon_not_mem_fmtInt b) (colon_not_mem_fmtInt b') h1
  exact ⟨fmtInt_injective h2.1, fmtInt_injective (List.append_cancel_left h2.2)⟩

theorem stepJs_length (iter : Nat) (js : List Nat) (n : Nat) :
    (stepJs iter js n).length = js.length := by
  unfold stepJs
  split
  · rfl
  · split <;> simp

theorem stepJs_le (iter : Nat) (js : List Nat) (n : Nat) (h : ∀ (m j : Nat), js[m]? = some j → j ≤ iter) :
    ∀ (m j : Nat), (stepJs iter js n)[m]? = some j → j ≤ iter := by
  intro m j hm
  unfold stepJs at hm
  split at hm
  · exact h m j hm
  · next j0 hj0 =>
    split at hm
    · next hlt =>
      by_cases hmn : n = m
      · subst hmn
        have hlen : n < js.length := by
          rcases List.getElem?_eq_some.1 hj0 with ⟨hl, _⟩
          exact hl
        rw [List.getElem?_set_self hlen] at hm
        simp at hm
        omega
      · rw [List.getElem?_set_ne hmn] at hm
        exact h m j hm
    · exact h m j hm

theorem foldl_stepJs_length (iter : Nat) (picks : List Nat) : ∀ js : List Nat,
    (picks.foldl (stepJs iter) js).length = js.length := by
  induction picks with
  | nil => intro js; rfl
  | cons n rest ih => intro js; simp only [List.foldl]; rw [ih, stepJs_length]

theorem foldl_stepJs_le (iter : Nat) (picks : List Nat) : ∀ js : List Nat,
    (∀ (m j : Nat), js[m]? = some j → j ≤ iter) →
    ∀ (m j : Nat), (picks.foldl (stepJs iter) js)[m]? = some j → j ≤ iter := by
  induction picks with
  | nil => intro js h; simpa using h
  | cons n rest ih => intro js h; simp only [List.foldl]; exact ih _ (stepJs_le iter js n h)

theorem foldl_stepJs_replicate (iter n : Nat) (k : Nat) : ∀ js : List Nat,
    (∀ (m j : Nat), js[m]? = some j → j ≤ iter) →
    (∀ (m : Nat), m ≠ n → ((List.replicate k n).foldl (stepJs iter) js)[m]? = js[m]?) ∧
    (∀ (j : Nat), js[n]? = some j →
      ((List.replicate k n).foldl (stepJs iter) js)[n]? = some (min (j + k) iter)) := by
  induction k with
  | zero =>
    intro js h
    refine ⟨fun m _ => rfl, fun j hj => ?_⟩
    have := h n j hj
    simp only [List.replicate, List.foldl, Nat.add_zero]
    rw [hj, Nat.min_eq_left this]
  | succ k ih =>
    intro js h
    simp only [List.replicate, List.foldl]
    have h' := stepJs_le iter js n h
    obtain ⟨ih1, ih2⟩ := ih (stepJs iter js n) h'
    refine ⟨fun m hm => ?_, fun j hj => ?_⟩
    · rw [ih1 m hm]
      unfold stepJs
      split
      · rfl
      · split
        · rw [List.getElem?_set_ne (Ne.symm hm)]
        · rfl
    · have hlen : n < js.length := (List.getElem?_eq_some.1 hj).1
      have hle := h n j hj
      by_cases hlt : j < iter
      · have hs : (stepJs iter js n)[n]? = some (j + 1) := by
          unfold stepJs
          rw [hj]
          simp only [hlt, if_true]
          rw [List.getElem?_set_self hlen]
        rw [ih2 (j + 1) hs]
        congr 1
        omega
      · have hs : (stepJs iter js n)[n]? = some j := by
          unfold stepJs
          rw [hj]
          simp only [hlt, if_false]
          exact hj
        rw [ih2 j hs]
        congr 1
        omega

theorem foldl_stepJs_drain (iter : Nat) (b : Nat) : ∀ js : List Nat,
    (∀ (m j : Nat), js[m]? = some j → j ≤ iter) →
    ∀ n, n < b → n < js.length → ((drainPicks iter b).foldl (stepJs iter) js)[n]? = some iter := by
  induction b with
  | zero => intro js _ n hn; omega
  | succ b ih =>
    intro js h n hn hlen
    simp only [drainPicks, List.foldl_append]
    have h1 := foldl_stepJs_le iter (drainPicks iter b) js h
    obtain ⟨r1, r2⟩ := foldl_stepJs_replicate iter b iter _ h1
    by_cases hnb : n = b
    · subst hnb
      have hl : n < ((drainPicks iter n).foldl (stepJs iter) js).length := by
        rw [foldl_stepJs_length]; exact hlen
      obtain ⟨j, hj⟩ : ∃ j, ((drainPicks iter n).foldl (stepJs iter) js)[n]? = some j :=
        ⟨_, List.getElem?_eq_getElem hl⟩
      rw [r2 j hj]
      congr 1
      have := h1 n j hj
      omega
    · rw [r1 n hnb]
      exact ih js h n (by omega) hlen

theorem foldl_stepJs_done (iter buckets : Nat) (sched : List Nat) :
    (sched ++ drainPicks iter buckets).foldl (stepJs iter) (List.replicate buckets 0)
      = List.replicate buckets iter := by
  have h0 : ∀ (m j : Nat), (List.replicate buckets 0)[m]? = some j → j ≤ iter := by
    intro m j hm
    rcases List.getElem?_eq_some.1 hm with ⟨_, hv⟩
    simp at hv
    omega
  rw [List.foldl_append]
  have h1 := foldl_stepJs_le iter sched _ h0
  have hlen : (sched.foldl (stepJs iter) (List.replicate buckets 0)).length = buckets := by
    rw [foldl_stepJs_length]; simp
  apply List.ext_getElem?
  intro n
  by_cases hn : n < buckets
  · rw [foldl_stepJs_drain iter buckets _ h1 n hn (by omega)]
    simp [List.getElem?_replicate, hn]
  · have hl2 : ((drainPicks iter buckets).foldl (stepJs iter)
        (sched.foldl (stepJs iter) (List.replicate buckets 0))).length = buckets := by
      rw [foldl_stepJs_length]; exact hlen
    rw [List.getElem?_eq_none (by omega), List.getElem?_eq_none (by simp; omega)]

theorem runPicks_inv {σ : Type} (call : Nat → Nat → σ → Except GoError σ) (iter : Nat)
    (P : List Nat → σ → Prop)
    (hstep : ∀ js st n j, P js st → js[n]? = some j → j < iter →
      ∃ st', call n j st = .ok st' ∧ P (js.set n (j + 1)) st')
    (picks : List Nat) : ∀ w : Workers σ, P w.js w.stor →
    ∃ w', runPicks call iter picks w = .ok w' ∧ P w'.js w'.stor ∧
      w'.js = picks.foldl (stepJs iter) w.js := by
  induction picks with
  | nil => intro w hw; exact ⟨w, rfl, hw, rfl⟩
  | cons n rest ih =>
    intro w hw
    simp only [runPicks, List.foldl]
    have hs : ∃ w1, workerStep call iter w n = .ok w1 ∧ P w1.js w1.stor ∧
        w1.js = stepJs iter w.js n := by
      unfold workerStep stepJs
      cases hj : w.js[n]? with
      | none => exact ⟨w, rfl, hw, rfl⟩
      | some j =>
        by_cases hlt : j < iter
        · obtain ⟨st', hc, hp⟩ := hstep w.js w.stor n j hw hj hlt
          simp only [hlt, if_true, hc]
          exact ⟨_, rfl, hp, rfl⟩
        · simp only [hlt, if_false]
          exact ⟨w, rfl, hw, rfl⟩
    obtain ⟨w1, h1, hp1, hj1⟩ := hs
    rw [h1]
    obtain ⟨w2, h2, hp2, hj2⟩ := ih w1 hp1
    exact ⟨w2, h2, hp2, by rw [hj2, hj1]⟩

theorem runWorkers_inv {σ : Type} (call : Nat → Nat → σ → Except GoError σ)
    (buckets iter : Nat) (sched : List Nat) (s : σ) (P : List Nat → σ → Prop)
    (h0 : P (List.replicate buckets 0) s)
    (hstep : ∀ js st n j, P js st → js[n]? = some j → j < iter →
      ∃ st', call n j st = .ok st' ∧ P (js.set n (j + 1)) st') :
    ∃ st', runWorkers call buckets iter sched s = .ok st' ∧
      P (List.replicate buckets iter) st' := by
  obtain ⟨w, hw, hp, hj⟩ := runPicks_inv call iter P hstep (sched ++ drainPicks iter buckets)
    ⟨List.replicate buckets 0, s⟩ h0
  refine ⟨w.stor, ?_, ?_⟩
  · unfold runWorkers; rw [hw]
  · rw [foldl_stepJs_done] at hj
    rw [← hj]; exact hp

/-! ## Finite-map lemmas -/

theorem kvGet_kvPut {V : Type} (s : KV V) (k : Bytes) (v : V) (k' : Bytes) :
    kvGet (kvPut s k v) k' = if k' = k then some v else kvGet s k' := by
  induction s with
  | nil => simp [kvPut, kvGet]
  | cons e rest ih =>
    obtain ⟨k0, v0⟩ := e
    simp only [kvPut]
    by_cases h1 : k = k0
    · subst h1
      by_cases h3 : k' = k <;> simp [kvGet, h3]
    · simp only [h1, if_false]
      by_cases h2 : bytesLt k k0 = true
      · by_cases h3 : k' = k <;> simp [h2, kvGet, h3]
      · simp only [h2, kvGet, ih]
        by_cases h3 : k' = k0
        · subst h3
          have : ¬ k' = k := fun h => h1 h.symm
          simp [this]
        · simp [h3]

theorem kvGet_kvPut_self {V : Type} (s : KV V) (k : Bytes) (v : V) :
    kvGet (kvPut s k v) k = some v := by
  rw [kvGet_kvPut]; simp

theorem kvGet_kvPut_ne {V : Type} (s : KV V) (k : Bytes) (v : V) (k' : Bytes) (h : k' ≠ k) :
    kvGet (kvPut s k v) k' = kvGet s k' := by
  rw [kvGet_kvPut]; simp [h]

theorem bucketEntries_kvPut (db : Buckets) (b : Bytes) (x : KV Bytes) (b' : Bytes) :
    bucketEntries (kvPut db b x) b' = if b' = b then x else bucketEntries db b' := by
  unfold bucketEntries
  rw [kvGet_kvPut]
  by_cases h : b' = b <;> simp [h]

theorem bucketEntries_create (db : Buckets) (b b' : Bytes) :
    bucketEntries (grogudbGetOrCreateBucket db b) b' = bucketEntries db b' := by
  unfold grogudbGetOrCreateBucket
  cases h : kvGet db b with
  | some x => rfl
  | none =>
    simp only
    rw [bucketEntries_kvPut]
    by_cases hb : b' = b
    · subst hb; simp [bucketEntries, h]
    · simp [hb]

theorem boltCreate_eq (tx : Buckets) (b : Bytes) :
    boltCreateBucketIfNotExists tx b = (grogudbGetOrCreateBucket tx b, none) := by
  unfold boltCreateBucketIfNotExists grogudbGetOrCreateBucket
  cases kvGet tx b <;> rfl

/-! ## What each adapter call comes to -/

theorem leveldb_PutIf_eq (b k v : Bytes) (db : KV Bytes) :
    LevelDBStorage.PutIf b k v db = (if (kvGet db k).isSome then db else kvPut db k v, none) := by
  unfold LevelDBStorage.PutIf leveldbHas leveldbPut
  cases h : kvGet db k <;> simp [h]

theorem badger_Put_eq (b k v : Bytes) (db : KV Bytes) :
    BadgerStorage.Put b k v db = (kvPut db k v, none) := rfl

theorem badger_PutIf_eq (b k v : Bytes) (db : KV Bytes) :
    BadgerStorage.PutIf b k v db = (if (kvGet db k).isSome then db else kvPut db k v, none) := by
  unfold BadgerStorage.PutIf badgerUpdate badgerTxnGet badgerTxnSet
  cases h : kvGet db k <;> simp [h, badgerErrKeyNotFound]

theorem badger_Get_eq (b k : Bytes) (db : KV Bytes) :
    BadgerStorage.Get b k db =
      (db, kvGet db k, if (kvGet db k).isSome then none else some badgerErrKeyNotFound) := by
  unfold BadgerStorage.Get badgerUpdate badgerTxnGet
  cases h : kvGet db k <;> simp [h]

theorem badger_Has_eq (b k : Bytes) (db : KV Bytes) :
    BadgerStorage.Has b k db = (db, (kvGet db k).isSome, none) := by
  unfold BadgerStorage.Has badgerUpdate badgerTxnGet
  cases h : kvGet db k <;> simp [h]

theorem bbolt_Put_eq (b k v : Bytes) (db : Buckets) :
    BboltStorage.Put b k v db = GrogudbStorage.Put b k v db := by
  unfold BboltStorage.Put GrogudbStorage.Put boltUpdate boltBucketPut grogudbBucketPut
  simp only [boltCreate_eq]

theorem bbolt_Get_eq (b k : Bytes) (db : Buckets) :
    BboltStorage.Get b k db = GrogudbStorage.Get b k db := by
  unfold BboltStorage.Get GrogudbStorage.Get boltUpdate boltBucketGet grogudbBucketGet
  simp only [boltCreate_eq]

theorem bbolt_Has_eq (b k : Bytes) (db : Buckets) :
    BboltStorage.Has b k db = GrogudbStorage.Has b k db := by
  unfold BboltStorage.Has GrogudbStorage.Has boltUpdate boltBucketGet grogudbBucketHas
  simp only [boltCreate_eq]

theorem bbolt_PutIf_eq (b k v : Bytes) (db : Buckets) :
    BboltStorage.PutIf b k v db = GrogudbStorage.PutIf b k v db := by
  unfold BboltStorage.PutIf GrogudbStorage.PutIf boltUpdate boltBucketGet boltBucketPut
    grogudbBucketPutIf
  simp only [boltCreate_eq]
  cases h : kvGet (bucketEntries (grogudbGetOrCreateBucket db b) b) k <;> simp [h]

theorem grogudb_entries_Put (b k v : Bytes) (db : Buckets) (b' : Bytes) :
    bucketEntries (GrogudbStorage.Put b k v db).1 b' =
      if b' = b then kvPut (bucketEntries db b) k v else bucketEntries db b' := by
  unfold GrogudbStorage.Put grogudbBucketPut
  simp only [bucketEntries_kvPut, bucketEntries_create]

theorem grogudb_entries_PutIf (b k v : Bytes) (db : Buckets) (b' : Bytes) :
    bucketEntries (GrogudbStorage.PutIf b k v db).1 b' =
      if b' = b ∧ (kvGet (bucketEntries db b) k).isNone then kvPut (bucketEntries db b) k v
      else bucketEntries db b' := by
  unfold GrogudbStorage.PutIf grogudbBucketPutIf
  rw [bucketEntries_create]
  cases h : kvGet (bucketEntries db b) k with
  | some x => simp [bucketEntries_create]
  | none =>
    simp only [bucketEntries_kvPut, bucketEntries_create]
    by_cases hb : b' = b <;> simp [hb]

theorem leveldb_putLaws : PutLaws LevelDBStorage.storage flatLook where
  put_ok := fun _ _ _ _ => rfl
  look_put_self := fun _ k v s => kvGet_kvPut_self s k v
  look_put_other := fun _ k v s _ k' h => kvGet_kvPut_ne s k v k' h
  get_look := fun _ k s => by
    show (leveldbGet s k).1 = kvGet s k
    unfold leveldbGet; cases kvGet s k <;> rfl
  get_found := fun _ k v s h => by
    show leveldbGet s k = (some v, none)
    unfold flatLook at h
    unfold leveldbGet; rw [h]
  has_look := fun _ _ _ => rfl
  look_has := fun _ _ _ _ _ => rfl

theorem badger_putLaws : PutLaws BadgerStorage.storage flatLook where
  put_ok := fun _ _ _ _ => rfl
  look_put_self := fun _ k v s => kvGet_kvPut_self s k v
  look_put_other := fun _ k v s _ k' h => kvGet_kvPut_ne s k v k' h
  get_look := fun b k s => by
    show (BadgerStorage.Get b k s).2.1 = kvGet s k
    rw [badger_Get_eq]
  get_found := fun b k v s h => by
    show (BadgerStorage.Get b k s).2 = (some v, none)
    unfold flatLook at h
    rw [badger_Get_eq, h]; rfl
  has_look := fun b k s => by
    show (BadgerStorage.Has b k s).2 = _
    rw [badger_Has_eq]; rfl
  look_has := fun b k s b' k' => by
    show flatLook (BadgerStorage.Has b k s).1 b' k' = _
    rw [badger_Has_eq]

theorem grogudb_putLaws : PutLaws GrogudbStorage.storage bucketLook where
  put_ok := fun _ _ _ _ => rfl
  look_put_self := fun b k v s => by
    show kvGet (bucketEntries (GrogudbStorage.Put b k v s).1 b) k = some v
    rw [grogudb_entries_Put]; simp [kvGet_kvPut_self]
  look_put_other := fun b k v s b' k' h => by
    show kvGet (bucketEntries (GrogudbStorage.Put b k v s).1 b') k' = kvGet (bucketEntries s b') k'
    rw [grogudb_entries_Put]
    by_cases hb : b' = b
    · subst hb; simp [kvGet_kvPut_ne _ _ _ _ h]
    · simp [hb]
  get_look := fun b k s => by
    show kvGet (bucketEntries (grogudbGetOrCreateBucket s b) b) k = kvGet (bucketEntries s b) k
    rw [bucketEntries_create]
  get_found := fun b k v s h => by
    show (kvGet (bucketEntries (grogudbGetOrCreateBucket s b) b) k, none) = (some v, none)
    rw [bucketEntries_create]
    unfold bucketLook at h
    rw [h]
  has_look := fun b k s => by
    show ((kvGet (bucketEntries (grogudbGetOrCreateBucket s b) b) k).isSome, none) = _
    rw [bucketEntries_create]; rfl
  look_has := fun b k s b' k' => by
    show kvGet (bucketEntries (grogudbGetOrCreateBucket s b) b') k' = kvGet (bucketEntries s b') k'
    rw [bucketEntries_create]

theorem bbolt_putLaws : PutLaws BboltStorage.storage bucketLook where
  put_ok := fun b k v s => by
    show (BboltStorage.Put b k v s).2 = none
    rw [bbolt_Put_eq]; rfl
  look_put_self := fun b k v s => by
    show bucketLook (BboltStorage.Put b k v s).1 b k = some v
    rw [bbolt_Put_eq]; exact grogudb_putLaws.look_put_self b k v s
  look_put_other := fun b k v s b' k' h => by
    show bucketLook (BboltStorage.Put b k v s).1 b' k' = _
    rw [bbolt_Put_eq]; exact grogudb_putLaws.look_put_other b k v s b' k' h
  get_look := fun b k s => by
    show (BboltStorage.Get b k s).2.1 = _
    rw [bbolt_Get_eq]; exact grogudb_putLaws.get_look b k s
  get_found := fun b k v s h => by
    show (BboltStorage.Get b k s).2 = _
    rw [bbolt_Get_eq]; exact grogudb_putLaws.get_found b k v s h
  has_look := fun b k s => by
    show (BboltStorage.Has b k s).2 = _
    rw [bbolt_Has_eq]; exact grogudb_putLaws.has_look b k s
  look_has := fun b k s b' k' => by
    show bucketLook (BboltStorage.Has b k s).1 b' k' = _
    rw [bbolt_Has_eq]; exact grogudb_putLaws.look_has b k s b' k'

theorem leveldb_putIfLaws : PutIfLaws LevelDBStorage.storage flatLook where
  putIf_ok := fun b k v s => by
    show (LevelDBStorage.PutIf b k v s).2 = none
    rw [leveldb_PutIf_eq]
  look_putIf_self := fun b k v s => by
    show kvGet (LevelDBStorage.PutIf b k v s).1 k = _
    rw [leveldb_PutIf_eq]
    unfold flatLook
    cases h : kvGet s k <;> simp [h, kvGet_kvPut_self]
  look_putIf_other := fun b k v s b' k' hk => by
    show kvGet (LevelDBStorage.PutIf b k v s).1 k' = kvGet s k'
    rw [leveldb_PutIf_eq]
    cases h : kvGet s k <;> simp [kvGet_kvPut_ne _ _ _ _ hk]

theorem badger_putIfLaws : PutIfLaws BadgerStorage.storage flatLook where
  putIf_ok := fun b k v s => by
    show (BadgerStorage.PutIf b k v s).2 = none
    rw [badger_PutIf_eq]
  look_putIf_self := fun b k v s => by
    show kvGet (BadgerStorage.PutIf b k v s).1 k = _
    rw [badger_PutIf_eq]
    unfold flatLook
    cases h : kvGet s k <;> simp [h, kvGet_kvPut_self]
  look_putIf_other := fun b k v s b' k' hk => by
    show kvGet (BadgerStorage.PutIf b k v s).1 k' = kvGet s k'
    rw [badger_PutIf_eq]
    cases h : kvGet s k <;> simp [kvGet_kvPut_ne _ _ _ _ hk]

theorem grogudb_putIfLaws : PutIfLaws GrogudbStorage.storage bucketLook where
  putIf_ok := fun b k v s => by
    show (GrogudbStorage.PutIf b k v s).2 = none
    unfold GrogudbStorage.PutIf grogudbBucketPutIf
    cases kvGet (bucketEntries (grogudbGetOrCreateBucket s b) b) k <;> rfl
  look_putIf_self := fun b k v s => by
    show kvGet (bucketEntries (GrogudbStorage.PutIf b k v s).1 b) k = _
    rw [grogudb_entries_PutIf]
    unfold bucketLook
    cases h : kvGet (bucketEntries s b) k <;> simp [h, kvGet_kvPut_self]
  look_putIf_other := fun b k v s b' k' hk => by
    show kvGet (bucketEntries (GrogudbStorage.PutIf b k v s).1 b') k' = kvGet (bucketEntries s b') k'
    rw [grogudb_entries_PutIf]
    by_cases hb : b' = b ∧ (kvGet (bucketEntries s b) k).isNone = true
    · rw [if_pos hb, kvGet_kvPut_ne _ _ _ _ hk, hb.1]
    · rw [if_neg hb]

theorem bbolt_putIfLaws : PutIfLaws BboltStorage.storage bucketLook where
  putIf_ok := fun b k v s => by
    show (BboltStorage.PutIf b k v s).2 = none
    rw [bbolt_PutIf_eq]; exact grogudb_putIfLaws.putIf_ok b k v s
  look_putIf_self := fun b k v s => by
    show bucketLook (BboltStorage.PutIf b k v s).1 b k = _
    rw [bbolt_PutIf_eq]; exact grogudb_putIfLaws.look_putIf_self b k v s
  look_putIf_other := fun b k v s b' k' hk => by
    show bucketLook (BboltStorage.PutIf b k v s).1 b' k' = _
    rw [bbolt_PutIf_eq]; exact grogudb_putIfLaws.look_putIf_other b k v s b' k' hk

/-! ## Scans -/

theorem runCalls_recorder (l : List (Bytes × Bytes)) : ∀ acc : List (Bytes × Bytes),
    runCalls recorder l acc = (acc ++ l, none) := by
  induction l with
  | nil => intro acc; simp [runCalls]
  | cons e rest ih =>
    intro acc
    obtain ⟨k, v⟩ := e
    simp only [runCalls, recorder]
    have := ih (acc ++ [(k, v)])
    simp only [recorder] at this
    rw [this]; simp

theorem runCalls_stop {τ : Type} (fn : Callback τ) (pre post : List (Bytes × Bytes))
    (k v : Bytes) (e : GoError) : ∀ (t t1 t2 : τ), runCalls fn pre t = (t1, none) →
    fn t1 k v = (t2, some e) → runCalls fn (pre ++ (k, v) :: post) t = (t2, some e) := by
  induction pre with
  | nil =>
    intro t t1 t2 h1 h2
    simp only [runCalls, Prod.mk.injEq, and_true] at h1
    subst h1
    simp only [List.nil_append, runCalls, h2]
  | cons x pre ih =>
    intro t t1 t2 h1 h2
    obtain ⟨k0, v0⟩ := x
    simp only [List.cons_append, runCalls] at h1 ⊢
    rcases hf : fn t k0 v0 with ⟨t', _ | e'⟩
    · rw [hf] at h1
      simp only at h1 ⊢
      exact ih t' t1 t2 h1 h2
    · rw [hf] at h1
      simp at h1

theorem leveldb_rangeLoop_eq {τ : Type} (fn : Callback τ) :
    ∀ (items : List (Bytes × Bytes)) (t : τ),
    LevelDBStorage.rangeLoop fn items t =
      ((runCalls fn items.tail t).1, .ret (runCalls fn items.tail t).2) := by
  intro items
  induction items with
  | nil => intro t; rfl
  | cons x rest ih =>
    intro t
    cases rest with
    | nil => rfl
    | cons y more =>
      obtain ⟨k, v⟩ := y
      simp only [LevelDBStorage.rangeLoop, List.tail_cons, runCalls]
      rcases hf : fn t k v with ⟨t', _ | e'⟩
      · simp only
        rw [ih t']; rfl
      · rfl

theorem badger_rangeLoop_eq {τ : Type} (p : Bytes) (fn : Callback τ) :
    ∀ (items : List (Bytes × Bytes)) (t : τ),
    BadgerStorage.rangeLoop p fn items t =
      runCalls fn (items.takeWhile fun e => p.isPrefixOf e.1) t := by
  intro items
  induction items with
  | nil => intro t; rfl
  | cons x rest ih =>
    intro t
    obtain ⟨k, v⟩ := x
    simp only [BadgerStorage.rangeLoop, List.takeWhile]
    by_cases hp : p.isPrefixOf k = true
    · simp only [hp, if_true, runCalls]
      rcases hf : fn t k v with ⟨t', _ | e'⟩
      · simp only
        rw [ih t']
      · rfl
    · simp only [hp]
      simp [runCalls]

theorem grogudbBucketRange_eq {τ : Type} (fn : Callback τ) :
    ∀ (items : List (Bytes × Bytes)) (t : τ),
    grogudbBucketRange (fun t k v =>
        match fn t k v with
        | (t', some err) => (t', some err)
        | (t', none) => (t', none)) items t =
      match runCalls fn items t with
      | (t', none) => (t', .ret none)
      | (t', some e) => (t', .panic e) := by
  intro items
  induction items with
  | nil => intro t; rfl
  | cons x rest ih =>
    intro t
    obtain ⟨k, v⟩ := x
    simp only [grogudbBucketRange, runCalls]
    rcases hf : fn t k v with ⟨t', _ | e'⟩
    · simp only
      rw [ih t']
    · rfl

/-- The entries a scan of `bucket` hands to its callback, adapter by adapter. -/
theorem leveldb_Range_eq {τ : Type} (bucket : Bytes) (fn : Callback τ) (t : τ)
    (db : KV Bytes) :
    (LevelDBStorage.Range τ bucket fn t db).2 =
      ((runCalls fn (leveldbNewIterator db bucket).tail t).1,
        .ret (runCalls fn (leveldbNewIterator db bucket).tail t).2) := by
  unfold LevelDBStorage.Range
  rw [leveldb_rangeLoop_eq]

theorem badger_Range_eq {τ : Type} (bucket : Bytes) (fn : Callback τ) (t : τ)
    (db : KV Bytes) :
    (BadgerStorage.Range τ bucket fn t db).2 =
      ((runCalls fn ((badgerSeek db bucket).takeWhile fun e => bucket.isPrefixOf e.1) t).1,
        .ret (runCalls fn ((badgerSeek db bucket).takeWhile fun e => bucket.isPrefixOf e.1) t).2) := by
  unfold BadgerStorage.Range badgerUpdate
  simp only [badger_rangeLoop_eq]
  rcases runCalls fn ((badgerSeek db bucket).takeWhile fun e => bucket.isPrefixOf e.1) t
    with ⟨t', _ | e⟩ <;> rfl

theorem bbolt_Range_eq {τ : Type} (bucket : Bytes) (fn : Callback τ) (t : τ)
    (db : Buckets) :
    (BboltStorage.Range τ bucket fn t db).2 =
      ((runCalls fn (bucketEntries db bucket) t).1,
        .ret (runCalls fn (bucketEntries db bucket) t).2) := by
  unfold BboltStorage.Range boltUpdate boltBucketForEach
  simp only [boltCreate_eq, bucketEntries_create]
  rcases runCalls fn (bucketEntries db bucket) t with ⟨t', _ | e⟩ <;> rfl

theorem grogudb_Range_eq {τ : Type} (bucket : Bytes) (fn : Callback τ) (t : τ)
    (db : Buckets) :
    (GrogudbStorage.Range τ bucket fn t db).2 =
      match runCalls fn (bucketEntries db bucket) t with
      | (t', none) => (t', .ret none)
      | (t', some e) => (t', .panic e) := by
  unfold GrogudbStorage.Range
  simp only [grogudbBucketRange_eq, bucketEntries_create]

/-! ## Put workloads -/

theorem putUnique_contract {σ : Type} (stor : Storage σ) (look : σ → Bytes → Bytes → Option Bytes)
    (L : PutLaws stor look) (B N : Nat) (sched : List Nat) (s0 : σ) :
    ∃ db, benchmarkPut stor true B N sched s0 = .ok db ∧
      ∀ b i, b < B → i < N → look db (bucketNum b) (keyNum b i) = some (valNum b i) := by
  have h := runWorkers_inv
    (fun n j s => orPanic (stor.Put (bucketNum n)
      (if true = true then keyNum n j else keyNum n 0) (valNum n j) s))
    B N sched s0
    (fun js st => ∀ (b i j : Nat), js[b]? = some j → i < j →
      look st (bucketNum b) (keyNum b i) = some (valNum b i))
    (by
      intro b i j hj hi
      rcases List.getElem?_eq_some.1 hj with ⟨_, hv⟩
      simp at hv
      omega)
    (by
      intro js st n j hP hj hlt
      refine ⟨(stor.Put (bucketNum n) (keyNum n j) (valNum n j) st).1, ?_, ?_⟩
      · have hok := L.put_ok (bucketNum n) (keyNum n j) (valNum n j) st
        rcases hput : stor.Put (bucketNum n) (keyNum n j) (valNum n j) st with ⟨s', err⟩
        rw [hput] at hok
        simp only at hok
        subst hok
        simp [orPanic, hput]
      · intro b i j' hj' hi
        have hlen : n < js.length := (List.getElem?_eq_some.1 hj).1
        by_cases hbn : n = b
        · subst hbn
          rw [List.getElem?_set_self hlen] at hj'
          simp only [Option.some.injEq] at hj'
          by_cases hij : i = j
          · subst hij
            exact L.look_put_self _ _ _ _
          · rw [L.look_put_other _ _ _ _ _ _ (fun hk => hij (keyNum_injective hk).2)]
            exact hP n i j hj (by omega)
        · rw [List.getElem?_set_ne hbn] at hj'
          rw [L.look_put_other _ _ _ _ _ _ (fun hk => hbn (keyNum_injective hk).1.symm)]
          exact hP b i j' hj' hi)
  obtain ⟨db, hrun, hP⟩ := h
  refine ⟨db, hrun, ?_⟩
  intro b i hb hi
  exact hP b i N (by simp [List.getElem?_replicate, hb]) hi

theorem has_after_put {σ : Type} (stor : Storage σ) (look : σ → Bytes → Bytes → Option Bytes)
    (L : PutLaws stor look) (name : String) (B N : Nat) (sched : List Nat) (s : σ)
    (hs : ∀ b i, b < B → i < N → look s (bucketNum b) (keyNum b i) = some (valNum b i)) :
    ∃ db, benchmarkHas stor name B N sched s = .ok db := by
  have h := runWorkers_inv
    (fun n j s =>
      match stor.Has (bucketNum n) (keyNum n j) s with
      | (s', true, none) => .ok s'
      | _ => .error (name ++ ":Has"))
    B N sched s
    (fun js st => js.length = B ∧
      ∀ b i, b < B → i < N → look st (bucketNum b) (keyNum b i) = some (valNum b i))
    ⟨by simp, hs⟩
    (by
      intro js st n j hP hj hlt
      obtain ⟨hlen, hP⟩ := hP
      have hn : n < B := hlen ▸ (List.getElem?_eq_some.1 hj).1
      have hh := L.has_look (bucketNum n) (keyNum n j) st
      rw [hP n j hn hlt] at hh
      refine ⟨(stor.Has (bucketNum n) (keyNum n j) st).1, ?_, ?_, ?_⟩
      · rcases hhas : stor.Has (bucketNum n) (keyNum n j) st with ⟨s', ok, err⟩
        rw [hhas] at hh
        simp only [Option.isSome_some, Prod.mk.injEq] at hh
        obtain ⟨rfl, rfl⟩ := hh
        simp only [hhas]
      · simp [hlen]
      · intro b i hb hi
        rw [L.look_has]
        exact hP b i hb hi)
  obtain ⟨db, hrun, _⟩ := h
  exact ⟨db, hrun⟩

theorem putUnique_backend {σ : Type} (stor : Storage σ) (look : σ → Bytes → Bytes → Option Bytes)
    (L : PutLaws stor look) (B N : Nat) (sched : List Nat) (s0 : σ) :
    ∃ db, benchmarkPut stor true B N sched s0 = .ok db ∧
      (∀ b i, b < B → i < N →
        (stor.Get (bucketNum b) (keyNum b i) db).2 = (some (valNum b i), none) ∧
        (stor.Has (bucketNum b) (keyNum b i) db).2 = (true, none)) ∧
      ∀ (name : String) (sched2 : List Nat), ∃ db2, benchmarkHas stor name B N sched2 db = .ok db2 := by
  obtain ⟨db, hrun, hP⟩ := putUnique_contract stor look L B N sched s0
  refine ⟨db, hrun, ?_, ?_⟩
  · intro b i hb hi
    refine ⟨L.get_found _ _ _ _ (hP b i hb hi), ?_⟩
    rw [L.has_look, hP b i hb hi]; rfl
  · intro name sched2
    exact has_after_put stor look L name B N sched2 db hP

theorem putDuplicate_buckets (stor : Storage Buckets)
    (hok : ∀ b k v s, (stor.Put b k v s).2 = none)
    (hent : ∀ b k v s b', bucketEntries (stor.Put b k v s).1 b' =
      if b' = b then kvPut (bucketEntries s b) k v else bucketEntries s b')
    (B N : Nat) (sched : List Nat) (hN : 1 ≤ N) :
    ∃ db, benchmarkPut stor false B N sched [] = .ok db ∧
      ∀ b, b < B → bucketEntries db (bucketNum b) = [(keyNum b 0, valNum b (N - 1))] := by
  have h := runWorkers_inv
    (fun n j s => orPanic (stor.Put (bucketNum n)
      (if false = true then keyNum n j else keyNum n 0) (valNum n j) s))
    B N sched ([] : Buckets)
    (fun js st => ∀ (b j : Nat), js[b]? = some j →
      bucketEntries st (bucketNum b) = if j = 0 then [] else [(keyNum b 0, valNum b (j - 1))])
    (by
      intro b j hj
      rcases List.getElem?_eq_some.1 hj with ⟨_, hv⟩
      simp at hv
      subst hv
      rfl)
    (by
      intro js st n j hP hj hlt
      refine ⟨(stor.Put (bucketNum n) (keyNum n 0) (valNum n j) st).1, ?_, ?_⟩
      · have hok' := hok (bucketNum n) (keyNum n 0) (valNum n j) st
        rcases hput : stor.Put (bucketNum n) (keyNum n 0) (valNum n j) st with ⟨s', err⟩
        rw [hput] at hok'
        simp only at hok'
        subst hok'
        simp [orPanic, hput]
      · intro b j' hj'
        have hlen : n < js.length := (List.getElem?_eq_some.1 hj).1
        rw [hent]
        by_cases hbn : n = b
        · subst hbn
          rw [List.getElem?_set_self hlen] at hj'
          simp only [Option.some.injEq] at hj'
          subst hj'
          rw [hP n j hj]
          by_cases hj0 : j = 0
          · subst hj0; simp [kvPut]
          · simp [hj0, kvPut]
        · rw [List.getElem?_set_ne hbn] at hj'
          have : bucketNum b ≠ bucketNum n := fun hk => hbn (bucketNum_injective hk).symm
          simp only [this, if_false]
          exact hP b j' hj')
  obtain ⟨db, hrun, hP⟩ := h
  refine ⟨db, hrun, ?_⟩
  intro b hb
  rw [hP b N (by simp [List.getElem?_replicate, hb])]
  have : N ≠ 0 := by omega
  simp [this]

theorem putIf_twice {σ : Type} (stor : Storage σ) (look : σ → Bytes → Bytes → Option Bytes)
    (L : PutLaws stor look) (M : PutIfLaws stor look) (bucket k v1 v2 : Bytes) (db : σ)
    (habs : (stor.Has bucket k db).2 = (false, none)) :
    (stor.PutIf bucket k v1 db).2 = none ∧
    (stor.PutIf bucket k v2 (stor.PutIf bucket k v1 db).1).2 = none ∧
    (stor.Get bucket k (stor.PutIf bucket k v2 (stor.PutIf bucket k v1 db).1).1).2
      = (some v1, none) := by
  refine ⟨M.putIf_ok _ _ _ _, M.putIf_ok _ _ _ _, ?_⟩
  apply L.get_found
  rw [L.has_look] at habs
  have hnone : look db bucket k = none := by
    cases h : look db bucket k with
    | none => rfl
    | some x => rw [h] at habs; simp at habs
  rw [M.look_putIf_self, M.look_putIf_self, hnone]
  rfl

theorem putIf_workload {σ : Type} (stor : Storage σ) (look : σ → Bytes → Bytes → Option Bytes)
    (L : PutLaws stor look) (M : PutIfLaws stor look) (s0 : σ)
    (h0 : ∀ b k, look s0 b k = none) (B N : Nat) (sched : List Nat) (hN : 0 < N) :
    ∃ db, benchmarkPutIf stor B N sched s0 = .ok db ∧
      ∀ b, b < B → (stor.Get (bucketNum b) (keyNum b 0) db).2 = (some (valNum b 0), none) := by
  have h := runWorkers_inv
    (fun n j s => orPanic (stor.PutIf (bucketNum n) (keyNum n 0) (valNum n j) s))
    B N sched s0
    (fun js st => ∀ (b j : Nat), js[b]? = some j →
      look st (bucketNum b) (keyNum b 0) = if j = 0 then none else some (valNum b 0))
    (by
      intro b j hj
      rcases List.getElem?_eq_some.1 hj with ⟨_, hv⟩
      simp at hv
      subst hv
      simp [h0])
    (by
      intro js st n j hP hj hlt
      refine ⟨(stor.PutIf (bucketNum n) (keyNum n 0) (valNum n j) st).1, ?_, ?_⟩
      · have hok' := M.putIf_ok (bucketNum n) (keyNum n 0) (valNum n j) st
        rcases hput : stor.PutIf (bucketNum n) (keyNum n 0) (valNum n j) st with ⟨s', err⟩
        rw [hput] at hok'
        simp only at hok'
        subst hok'
        simp [orPanic, hput]
      · intro b j' hj'
        have hlen : n < js.length := (List.getElem?_eq_some.1 hj).1
        by_cases hbn : n = b
        · subst hbn
          rw [List.getElem?_set_self hlen] at hj'
          simp only [Option.some.injEq] at hj'
          subst hj'
          rw [M.look_putIf_self, hP n j hj]
          by_cases hj0 : j = 0
          · subst hj0; simp
          · simp [hj0]
        · rw [List.getElem?_set_ne hbn] at hj'
          rw [M.look_putIf_other _ _ _ _ _ _ (fun hk => hbn (keyNum_injective hk).1.symm)]
          exact hP b j' hj')
  obtain ⟨db, hrun, hP⟩ := h
  refine ⟨db, hrun, ?_⟩
  intro b hb
  apply L.get_found
  rw [hP b N (by simp [List.getElem?_replicate, hb])]
  have : N ≠ 0 := by omega
  simp [this]

/-! ## The claims -/

theorem mapGet_mapSet_self {V : Type u} (m : GoMap V) (name : String) (v : V) :
    mapGet (mapSet m name v) name = some v := by
  induction m with
  | nil => simp [mapSet, mapGet]
  | cons e rest ih =>
    obtain ⟨n, v'⟩ := e
    simp only [mapSet]
    by_cases h : name = n
    · subst h; simp [mapGet]
    · simp [h, mapGet, ih]

/-- C1: after the unique-key put workload on an initially empty backend, under
any interleaving of the workers, the run has not panicked, every key
`keyNum b i` with `b < B`, `i < N` is read back by `Get` as `valNum b i`,
`Has` reports it present, and so the `Has` workload that follows never
reaches its panic.  Holds for the adapters with one map per bucket (bbolt,
grogudb) and for those with a single map keyed by the key bytes (LevelDB,
Badger). -/
theorem putUnique_all_keys_present (be : Backend)
    (hbe : be ∈ [leveldbBackend, badgerBackend, bboltBackend, grogudbBackend])
    (B N : Nat) (sched : List Nat) :
    ∃ db, benchmarkPut be.stor true B N sched be.db = .ok db ∧
      (∀ b i, b < B → i < N →
        (be.stor.Get (bucketNum b) (keyNum b i) db).2 = (some (valNum b i), none) ∧
        (be.stor.Has (bucketNum b) (keyNum b i) db).2 = (true, none)) ∧
      ∀ (name : String) (sched2 : List Nat),
        ∃ db2, benchmarkHas be.stor name B N sched2 db = .ok db2 := by
  simp only [List.mem_cons, List.mem_singleton, List.not_mem_nil, or_false] at hbe
  rcases hbe with rfl | rfl | rfl | rfl
  · exact putUnique_backend _ _ leveldb_putLaws B N sched _
  · exact putUnique_backend _ _ badger_putLaws B N sched _
  · exact putUnique_backend _ _ bbolt_putLaws B N sched _
  · exact putUnique_backend _ _ grogudb_putLaws B N sched _

theorem putUnique_all_keys_present_witness :
    ∃ db, benchmarkPut LevelDBStorage.storage true 2 2 [1, 0, 0, 1] [] = .ok db ∧
      (LevelDBStorage.Get (bucketNum 1) (keyNum 1 1) db).2 = (some (valNum 1 1), none) ∧
      (LevelDBStorage.Has (bucketNum 1) (keyNum 1 1) db).2 = (true, none) := by
  obtain ⟨db, h1, h2, _⟩ :=
    putUnique_all_keys_present leveldbBackend (List.Mem.head _) 2 2 [1, 0, 0, 1]
  exact ⟨db, h1, h2 1 1 (by decide) (by decide)⟩

/-- On the adapters that keep one map per bucket (bbolt, grogudb), after the
duplicate-key put workload with `N ≥ 1` iterations from empty, under any
interleaving, the run has not panicked and a scan of each bucket `b < B`
finds exactly one entry, `keyNum b 0` bound to `valNum b (N - 1)`, which
`Get` returns too. -/
theorem putDuplicate_last_writer_wins (be : Backend)
    (hbe : be ∈ [bboltBackend, grogudbBackend]) (B N : Nat) (sched : List Nat) (hN : 1 ≤ N) :
    ∃ db, benchmarkPut be.stor false B N sched be.db = .ok db ∧
      ∀ b, b < B →
        (be.stor.Range _ (bucketNum b) recorder [] db).2
          = ([(keyNum b 0, valNum b (N - 1))], .ret none) ∧
        (be.stor.Get (bucketNum b) (keyNum b 0) db).2 = (some (valNum b (N - 1)), none) := by
  simp only [List.mem_cons, List.mem_singleton, List.not_mem_nil, or_false] at hbe
  rcases hbe with rfl | rfl
  · obtain ⟨db, hrun, hent⟩ := putDuplicate_buckets BboltStorage.storage bbolt_putLaws.put_ok
      (fun b k v s b' => by
        show bucketEntries (BboltStorage.Put b k v s).1 b' = _
        rw [bbolt_Put_eq]; exact grogudb_entries_Put b k v s b')
      B N sched hN
    refine ⟨db, hrun, fun b hb => ⟨?_, ?_⟩⟩
    · show (BboltStorage.Range _ (bucketNum b) recorder [] db).2 = _
      rw [bbolt_Range_eq, runCalls_recorder, hent b hb]; rfl
    · apply bbolt_putLaws.get_found
      show kvGet (bucketEntries db (bucketNum b)) (keyNum b 0) = _
      rw [hent b hb]; simp [kvGet]
  · obtain ⟨db, hrun, hent⟩ := putDuplicate_buckets GrogudbStorage.storage
      grogudb_putLaws.put_ok grogudb_entries_Put B N sched hN
    refine ⟨db, hrun, fun b hb => ⟨?_, ?_⟩⟩
    · show (GrogudbStorage.Range _ (bucketNum b) recorder [] db).2 = _
      rw [grogudb_Range_eq, runCalls_recorder, hent b hb]; rfl
    · apply grogudb_putLaws.get_found
      show kvGet (bucketEntries db (bucketNum b)) (keyNum b 0) = _
      rw [hent b hb]; simp [kvGet]

theorem putDuplicate_last_writer_wins_witness :
    ∃ db, benchmarkPut BboltStorage.storage false 2 3 [1, 0, 1, 1, 0, 0] [] = .ok db ∧
      (BboltStorage.Range _ (bucketNum 1) recorder [] db).2
        = ([(keyNum 1 0, valNum 1 2)], .ret none) ∧
      (BboltStorage.Get (bucketNum 1) (keyNum 1 0) db).2 = (some (valNum 1 2), none) := by
  obtain ⟨db, h1, h2⟩ :=
    putDuplicate_last_writer_wins bboltBackend (List.Mem.head _) 2 3 [1, 0, 1, 1, 0, 0]
      (by decide)
  exact ⟨db, h1, h2 1 (by decide)⟩

/-- C2: on the adapters that keep a single map and scan by key prefix, the
duplicate-key put workload does not leave every bucket with exactly one key
as far as a scan can tell.  With `LevelDBStorage`, 2 buckets and 50
iterations the store ends as `keyNum b 0 ↦ valNum b 49` for `b = 0, 1` and
`Get` returns `valNum 0 49`, yet `Range` on either bucket hands nothing to
the callback; with `BadgerStorage`, 11 buckets and 2 iterations, `Range` on
`bucketNum 1` hands over the key of bucket 10 as well. -/
theorem putDuplicate_scan_misreports :
    benchmarkPut LevelDBStorage.storage false 2 50 [1, 0, 0, 1] []
      = .ok [(keyNum 0 0, valNum 0 49), (keyNum 1 0, valNum 1 49)] ∧
    (LevelDBStorage.Get (bucketNum 0) (keyNum 0 0)
        [(keyNum 0 0, valNum 0 49), (keyNum 1 0, valNum 1 49)]).2 = (some (valNum 0 49), none) ∧
    (LevelDBStorage.Range _ (bucketNum 0) recorder []
        [(keyNum 0 0, valNum 0 49), (keyNum 1 0, valNum 1 49)]).2 = ([], .ret none) ∧
    (LevelDBStorage.Range _ (bucketNum 1) recorder []
        [(keyNum 0 0, valNum 0 49), (keyNum 1 0, valNum 1 49)]).2 = ([], .ret none) ∧
    (benchmarkPut BadgerStorage.storage false 11 2 [] []).map
        (fun db => (BadgerStorage.Range _ (bucketNum 1) recorder [] db).2)
      = .ok ([(keyNum 10 0, valNum 10 1), (keyNum 1 0, valNum 1 1)], .ret none) :=
  ⟨by decide, by decide, by decide, by decide, by decide⟩

/-- C3: `keyNum` and `valNum` are injective over the pair of indices. -/
theorem keyNum_valNum_injective (b i b' i' : Nat) :
    (keyNum b i = keyNum b' i' → b = b' ∧ i = i') ∧
    (valNum b i = valNum b' i' → b = b' ∧ i = i') :=
  ⟨keyNum_injective, valNum_injective⟩

theorem keyNum_valNum_injective_witness :
    (keyNum 12 7 = keyNum 12 7 ∧ 12 = 12 ∧ 7 = 7) ∧
    (valNum 3 40 = valNum 3 40 ∧ 3 = 3 ∧ 40 = 40) :=
  ⟨⟨rfl, (keyNum_valNum_injective 12 7 12 7).1 rfl⟩,
    ⟨rfl, (keyNum_valNum_injective 3 40 3 40).2 rfl⟩⟩

/-- C4: the prefix scans leak across buckets.  After the unique-key put
workload with 11 buckets and 1 iteration, `BadgerStorage.Range` on
`bucketNum 1` hands `keyNum 10 0` to the callback; with 2 iterations
`LevelDBStorage.Range` on `bucketNum 1` hands it `keyNum 10 1` (and never
`keyNum 10 0`, the first entry of the range). -/
theorem prefix_scan_visits_other_bucket :
    (benchmarkPut BadgerStorage.storage true 11 1 [] []).map
        (fun db => (BadgerStorage.Range _ (bucketNum 1) recorder [] db).2)
      = .ok ([(keyNum 10 0, valNum 10 0), (keyNum 1 0, valNum 1 0)], .ret none) ∧
    (benchmarkPut LevelDBStorage.storage true 11 2 [] []).map
        (fun db => (LevelDBStorage.Range _ (bucketNum 1) recorder [] db).2)
      = .ok ([(keyNum 10 1, valNum 10 1), (keyNum 1 0, valNum 1 0),
              (keyNum 1 1, valNum 1 1)], .ret none) := by
  constructor <;> decide

/-- C5: `LevelDBStorage.Range` never hands the first entry of the iterator's
range to the callback: the entries visited are the range without its first
entry, so a range of one entry gives no callback invocation at all. -/
theorem leveldb_range_skips_first :
    (∀ (bucket : Bytes) (db : KV Bytes),
      (LevelDBStorage.Range _ bucket recorder [] db).2
        = ((leveldbNewIterator db bucket).tail, .ret none)) ∧
    leveldbNewIterator [(keyNum 0 0, valNum 0 0)] (bucketNum 0) = [(keyNum 0 0, valNum 0 0)] ∧
    (LevelDBStorage.Range _ (bucketNum 0) recorder [] [(keyNum 0 0, valNum 0 0)]).2
      = ([], .ret none) := by
  refine ⟨fun bucket db => ?_, by decide, by decide⟩
  rw [leveldb_Range_eq, runCalls_recorder]; rfl

/-- C8: on `LevelDBStorage`, `BboltStorage` and `BadgerStorage`, from any
state in which `Has` reports `k` absent, `PutIf(bucket, k, v1)` followed by
`PutIf(bucket, k, v2)` both return nil and `Get(bucket, k)` then returns `v1`;
and the `BenchmarkPutIf` workload with at least one iteration, from empty,
under any interleaving, ends without a panic with `keyNum b 0` bound to
`valNum b 0` for every bucket `b < B`. -/
theorem putIf_keeps_first_value (be : Backend)
    (hbe : be ∈ [leveldbBackend, bboltBackend, badgerBackend]) :
    (∀ (bucket k v1 v2 : Bytes) (db : be.σ), (be.stor.Has bucket k db).2 = (false, none) →
      (be.stor.PutIf bucket k v1 db).2 = none ∧
      (be.stor.PutIf bucket k v2 (be.stor.PutIf bucket k v1 db).1).2 = none ∧
      (be.stor.Get bucket k (be.stor.PutIf bucket k v2 (be.stor.PutIf bucket k v1 db).1).1).2
        = (some v1, none)) ∧
    (∀ (B N : Nat) (sched : List Nat), 0 < N →
      ∃ db, benchmarkPutIf be.stor B N sched be.db = .ok db ∧
        ∀ b, b < B →
          (be.stor.Get (bucketNum b) (keyNum b 0) db).2 = (some (valNum b 0), none)) := by
  simp only [List.mem_cons, List.mem_singleton, List.not_mem_nil, or_false] at hbe
  rcases hbe with rfl | rfl | rfl
  · exact ⟨fun bucket k v1 v2 db h =>
        putIf_twice _ _ leveldb_putLaws leveldb_putIfLaws bucket k v1 v2 db h,
      fun B N sched hN =>
        putIf_workload _ _ leveldb_putLaws leveldb_putIfLaws ([] : KV Bytes) (fun _ _ => rfl) B N sched hN⟩
  · exact ⟨fun bucket k v1 v2 db h =>
        putIf_twice _ _ bbolt_putLaws bbolt_putIfLaws bucket k v1 v2 db h,
      fun B N sched hN =>
        putIf_workload _ _ bbolt_putLaws bbolt_putIfLaws ([] : Buckets) (fun _ _ => rfl) B N sched hN⟩
  · exact ⟨fun bucket k v1 v2 db h =>
        putIf_twice _ _ badger_putLaws badger_putIfLaws bucket k v1 v2 db h,
      fun B N sched hN =>
        putIf_workload _ _ badger_putLaws badger_putIfLaws ([] : KV Bytes) (fun _ _ => rfl) B N sched hN⟩

theorem putIf_keeps_first_value_witness :
    ((BboltStorage.PutIf (bucketNum 0) (keyNum 0 0) (valNum 0 0) []).2 = none ∧
      (BboltStorage.PutIf (bucketNum 0) (keyNum 0 0) (valNum 0 1)
        (BboltStorage.PutIf (bucketNum 0) (keyNum 0 0) (valNum 0 0) []).1).2 = none ∧
      (BboltStorage.Get (bucketNum 0) (keyNum 0 0)
        (BboltStorage.PutIf (bucketNum 0) (keyNum 0 0) (valNum 0 1)
          (BboltStorage.PutIf (bucketNum 0) (keyNum 0 0) (valNum 0 0) []).1).1).2
        = (some (valNum 0 0), none)) ∧
    ∃ db, benchmarkPutIf BboltStorage.storage 2 2 [1, 0, 0, 1] [] = .ok db ∧
      (BboltStorage.Get (bucketNum 1) (keyNum 1 0) db).2 = (some (valNum 1 0), none) :=
  have h := putIf_keeps_first_value bboltBackend (by simp)
  ⟨h.1 (bucketNum 0) (keyNum 0 0) (valNum 0 0) (valNum 0 1) [] (by decide),
    (h.2 2 2 [1, 0, 0, 1] (by decide)).imp fun _ hdb => ⟨hdb.1, hdb.2 1 (by decide)⟩⟩

/-- C6: `GrogudbStorage.Range` does not return the callback's error.  On a
bucket holding one entry, which the scan visits, a callback that fails with
`"stop"` makes it panic with `"stop"`. -/
theorem grogudb_range_panics_on_callback_error :
    (GrogudbStorage.Range _ (bucketNum 0) recorder []
        [(bucketNum 0, [(keyNum 0 0, valNum 0 0)])]).2.1 = [(keyNum 0 0, valNum 0 0)] ∧
    (GrogudbStorage.Range Unit (bucketNum 0) (fun _ _ _ => ((), some "stop")) ()
        [(bucketNum 0, [(keyNum 0 0, valNum 0 0)])]).2.2 = Outcome.panic "stop" ∧
    (GrogudbStorage.Range Unit (bucketNum 0) (fun _ _ _ => ((), some "stop")) ()
        [(bucketNum 0, [(keyNum 0 0, valNum 0 0)])]).2.2 ≠ Outcome.ret (some "stop") := by
  decide

/-- When the callback succeeds on the entries `pre` visited first and fails
with `e` on the next visited entry `(k, v)`, the `Range` of `LevelDBStorage`,
`BboltStorage` and `BadgerStorage` makes no further call and returns `e`,
while `GrogudbStorage.Range` makes no further call and panics with `e`.  The
entries visited are those the adapter hands to a callback that never fails. -/
theorem range_callback_failure (τ : Type) (fn : Callback τ) (t t1 t2 : τ) (bucket : Bytes)
    (pre post : List (Bytes × Bytes)) (k v : Bytes) (e : GoError)
    (hpre : runCalls fn pre t = (t1, none)) (hfail : fn t1 k v = (t2, some e)) :
    (∀ be, be ∈ [leveldbBackend, bboltBackend, badgerBackend] → ∀ db : be.σ,
      (be.stor.Range _ bucket recorder [] db).2.1 = pre ++ (k, v) :: post →
      (be.stor.Range τ bucket fn t db).2 = (t2, .ret (some e))) ∧
    (∀ db : Buckets,
      (GrogudbStorage.Range _ bucket recorder [] db).2.1 = pre ++ (k, v) :: post →
      (GrogudbStorage.Range τ bucket fn t db).2 = (t2, .panic e)) := by
  have hstop := fun l (h : l = pre ++ (k, v) :: post) =>
    h ▸ runCalls_stop fn pre post k v e t t1 t2 hpre hfail
  refine ⟨fun be hbe => ?_, fun db hvis => ?_⟩
  · simp only [List.mem_cons, List.mem_singleton, List.not_mem_nil, or_false] at hbe
    rcases hbe with rfl | rfl | rfl
    · intro db hvis
      change (LevelDBStorage.Range _ bucket recorder [] db).2.1 = _ at hvis
      show (LevelDBStorage.Range τ bucket fn t db).2 = _
      rw [leveldb_Range_eq, runCalls_recorder] at hvis
      rw [leveldb_Range_eq, hstop _ (by simpa using hvis)]
    · intro db hvis
      change (BboltStorage.Range _ bucket recorder [] db).2.1 = _ at hvis
      show (BboltStorage.Range τ bucket fn t db).2 = _
      rw [bbolt_Range_eq, runCalls_recorder] at hvis
      rw [bbolt_Range_eq, hstop _ (by simpa using hvis)]
    · intro db hvis
      change (BadgerStorage.Range _ bucket recorder [] db).2.1 = _ at hvis
      show (BadgerStorage.Range τ bucket fn t db).2 = _
      rw [badger_Range_eq, runCalls_recorder] at hvis
      rw [badger_Range_eq, hstop _ (by simpa using hvis)]
  · rw [grogudb_Range_eq, runCalls_recorder] at hvis
    rw [grogudb_Range_eq, hstop _ (by simpa using hvis)]

theorem range_callback_failure_witness :
    (BadgerStorage.Range Nat (bucketNum 0)
        (fun n _ _ => (n + 1, if n = 1 then some "stop" else none)) 0
        [(keyNum 0 0, valNum 0 0), (keyNum 0 1, valNum 0 1), (keyNum 0 2, valNum 0 2)]).2
      = (2, .ret (some "stop")) ∧
    (GrogudbStorage.Range Nat (bucketNum 0)
        (fun n _ _ => (n + 1, if n = 1 then some "stop" else none)) 0
        [(bucketNum 0,
          [(keyNum 0 0, valNum 0 0), (keyNum 0 1, valNum 0 1), (keyNum 0 2, valNum 0 2)])]).2
      = (2, .panic "stop") :=
  have h := range_callback_failure Nat (fun n _ _ => (n + 1, if n = 1 then some "stop" else none))
    0 1 2 (bucketNum 0) [(keyNum 0 0, valNum 0 0)] [(keyNum 0 2, valNum 0 2)]
    (keyNum 0 1) (valNum 0 1) "stop" (by decide) (by decide)
  ⟨h.1 badgerBackend (by simp)
      [(keyNum 0 0, valNum 0 0), (keyNum 0 1, valNum 0 1), (keyNum 0 2, valNum 0 2)] (by decide),
    h.2 [(bucketNum 0,
      [(keyNum 0 0, valNum 0 0), (keyNum 0 1, valNum 0 1), (keyNum 0 2, valNum 0 2)])]
      (by decide)⟩

/-- C7: with a storage name that is not registered and a registered operation
name, `main` prints the registered names and goes on: the benchmark routine
is entered and the temporary directory is created (and removed again) before
the call of the missing factory panics. -/
theorem main_unknown_storage_still_runs :
    mapGet (registerStorage fun _ => none) "rocksdb" = none ∧
    ∃ line, main (registerStorage fun _ => none) ⟨2, 2, "rocksdb", OpPutUnique, [], []⟩ =
      [.print line, .routine OpPutUnique, .mkdirTemp, .removeAll, .fatal] :=
  ⟨rfl, "no storage found, only [badger,bblot,grogudb,leveldb] supported\n", by decide⟩

/-- C9: when a contract call fails inside a worker, the run ends without
`removeDir`: with a backend whose `Put` returns an error, two buckets and one
iteration, the temporary directory is created, the factory is called, and the
process dies from the worker's panic with the directory still there. -/
theorem worker_panic_leaves_tmp_dir :
    main (Register (registerStorage fun _ => none) "full" failingFactory)
        ⟨1, 2, "full", OpPutUnique, [], []⟩ =
      [.routine OpPutUnique, .mkdirTemp, .factory "full", .fatal] ∧
    Event.removeAll ∉ main (Register (registerStorage fun _ => none) "full" failingFactory)
        ⟨1, 2, "full", OpPutUnique, [], []⟩ := by
  constructor <;> decide

/-- C10: after `Register(x, f1)` and then `Register(x, f2)`, looking `x` up in
`registerStorage` gives `f2`. -/
theorem register_last_wins {F : Type u} (reg : GoMap F) (x : String) (f1 f2 : F) :
    mapGet (Register (Register reg x f1) x f2) x = some f2 :=
  mapGet_mapSet_self _ _ _

end GroguBench
